import Mathlib

/-!
Shallow embedding of the counterpoint generator repository
(`counterpoint_utils.py`, `counterpoint_rules.py`, `counterpoint_generator.py`).

Modelling conventions:
* Python `int` pitches are `ℤ`; `fractions.Fraction` durations/positions are `ℚ`.
* Python floats are modelled by `ℚ`: every float value reached by this program
  is an exact small rational, every comparison on them is exact, and the only
  capped value (`min(score, 1.0)`) compares a sum of exactly-represented
  positive terms against `1.0`, so the rational and the float semantics agree.
* A Python exception (IndexError from list subscripts, ValueError from
  `random.randint` / `random.sample` / `max` on empty input, the explicit
  `raise ValueError` in `crossover`) is modelled by `Except.error` with the
  exception's message; `Except.ok` models normal return.
* Python list subscripts (including negative indices) are `pyGet`.
* The draws of the `random` module are abstracted as an oracle `rng : ℕ → ℕ`
  giving the n-th raw draw; a draw counter is threaded with `StateT ℕ`.
  `random.choice l` consumes one draw and picks index `rng c % l.length`
  (raising on an empty list exactly as Python does), `random.randint a b`
  consumes one draw (raising when the range is empty, as Python does),
  `random.random() < rate` consumes one draw, and `random.sample` consumes one
  draw per sampled element (raising when the sample is larger than the
  population).  Claims proved below hold for every oracle, and concrete
  counterexamples fix a concrete oracle.
* Python `while` loops without a structural termination measure
  (the graph walk of `generate_initial_population`, whose source can diverge
  on a cyclic graph) receive fuel; exhausted fuel is modelled as `Except.error`,
  so `Except.ok` results always coincide with terminating Python runs.
-/

deriving instance DecidableEq for Except

set_option maxRecDepth 400000

/-- `Note` from counterpoint_utils.py: pitch (MIDI int), duration and position
(Python `Fraction`s, modelled by `ℚ`). -/
structure Note where
  pitch : ℤ
  duration : ℚ
  position : ℚ
deriving DecidableEq, Repr

/-- `Voice` from counterpoint_utils.py: a wrapper around an ordered list of
notes. -/
structure Voice where
  notes : List Note
deriving DecidableEq, Repr

-- The `Interval` enum values from counterpoint_utils.py.
namespace Interval

def UNISON : ℕ := 0
def MINOR_SECOND : ℕ := 1
def MAJOR_SECOND : ℕ := 2
def MINOR_THIRD : ℕ := 3
def MAJOR_THIRD : ℕ := 4
def PERFECT_FOURTH : ℕ := 5
def TRITONE : ℕ := 6
def PERFECT_FIFTH : ℕ := 7
def MINOR_SIXTH : ℕ := 8
def MAJOR_SIXTH : ℕ := 9
def MINOR_SEVENTH : ℕ := 10
def MAJOR_SEVENTH : ℕ := 11
def OCTAVE : ℕ := 12

end Interval

/-- The `Mode` enum from counterpoint_utils.py (scale-offset list part of each
enum value; the rotation index, the second component, is never read by the
program). -/
inductive Mode where
  | IONIAN | DORIAN | PHRYGIAN | LYDIAN | MIXOLYDIAN | AEOLIAN | LOCRIAN
deriving DecidableEq, Repr

/-- The scale-degree offset sets of the seven modes (`mode.value[0]`). -/
def Mode.offsets : Mode → List ℤ
  | .IONIAN => [0, 2, 4, 5, 7, 9, 11]
  | .DORIAN => [0, 2, 3, 5, 7, 9, 10]
  | .PHRYGIAN => [0, 1, 3, 5, 7, 8, 10]
  | .LYDIAN => [0, 2, 4, 6, 7, 9, 11]
  | .MIXOLYDIAN => [0, 2, 4, 5, 7, 9, 10]
  | .AEOLIAN => [0, 2, 3, 5, 7, 8, 10]
  | .LOCRIAN => [0, 1, 3, 5, 6, 8, 10]

/-- The `Species` enum from counterpoint_utils.py. -/
inductive Species where
  | FIRST | SECOND | THIRD | FOURTH | FIFTH
deriving DecidableEq, Repr

/-- `calculate_interval(pitch1, pitch2) = abs(pitch1 - pitch2) % 12`. -/
def calculate_interval (pitch1 pitch2 : ℤ) : ℕ :=
  (pitch1 - pitch2).natAbs % 12

/-- `is_perfect_consonance`: unison, perfect fifth or octave. -/
def is_perfect_consonance (interval : ℕ) : Bool :=
  decide (interval ∈ [Interval.UNISON, Interval.PERFECT_FIFTH, Interval.OCTAVE])

/-- `is_imperfect_consonance`: minor/major third, minor/major sixth. -/
def is_imperfect_consonance (interval : ℕ) : Bool :=
  decide (interval ∈ [Interval.MINOR_THIRD, Interval.MAJOR_THIRD,
    Interval.MINOR_SIXTH, Interval.MAJOR_SIXTH])

/-- `is_consonant`. -/
def is_consonant (interval : ℕ) : Bool :=
  is_perfect_consonance interval || is_imperfect_consonance interval

/-- `is_dissonant`. -/
def is_dissonant (interval : ℕ) : Bool :=
  ! is_consonant interval

/-- `is_passing_tone(prev, curr, next)`: strictly between in either direction. -/
def is_passing_tone (prev_pitch curr_pitch next_pitch : ℤ) : Bool :=
  decide ((prev_pitch < curr_pitch ∧ curr_pitch < next_pitch) ∨
    (prev_pitch > curr_pitch ∧ curr_pitch > next_pitch))

/-- `check_parallel_motion(prev_cp, curr_cp, prev_cf, curr_cf)`: the previous
vertical (prev_cp against prev_cf) and the current vertical (curr_cp against
curr_cf) are both perfect consonances and the two voices move in the same
direction. -/
def check_parallel_motion (prev_cp curr_cp prev_cf curr_cf : ℤ) : Bool :=
  let prev_interval := calculate_interval prev_cp prev_cf
  let curr_interval := calculate_interval curr_cp curr_cf
  is_perfect_consonance prev_interval && is_perfect_consonance curr_interval &&
    decide ((curr_cp - prev_cp) * (curr_cf - prev_cf) > 0)

/-- `check_contrary_motion`. -/
def check_contrary_motion (prev_cp curr_cp prev_cf curr_cf : ℤ) : Bool :=
  decide ((curr_cp - prev_cp) * (curr_cf - prev_cf) < 0)

/-- `is_valid_suspension_preparation`. -/
def is_valid_suspension_preparation (interval : ℕ) : Bool :=
  decide (interval ∈ [Interval.MINOR_THIRD, Interval.MAJOR_THIRD,
    Interval.PERFECT_FOURTH, Interval.PERFECT_FIFTH,
    Interval.MINOR_SIXTH, Interval.MAJOR_SIXTH])

/-- `is_valid_suspension`. -/
def is_valid_suspension (interval : ℕ) : Bool :=
  decide (interval ∈ [Interval.MINOR_SECOND, Interval.MAJOR_SECOND,
    Interval.PERFECT_FOURTH, Interval.TRITONE])

/-- `is_valid_suspension_resolution`. -/
def is_valid_suspension_resolution (interval : ℕ) : Bool :=
  decide (interval ∈ [Interval.MINOR_THIRD, Interval.MAJOR_THIRD,
    Interval.PERFECT_FIFTH, Interval.MINOR_SIXTH, Interval.MAJOR_SIXTH])

/-- `is_downward_resolution(prev_pitch, curr_pitch)`. -/
def is_downward_resolution (prev_pitch curr_pitch : ℤ) : Bool :=
  decide (curr_pitch < prev_pitch)

/-- `is_strong_beat(position)`: `position.numerator % position.denominator == 0`.
Python's `Fraction` and Lean's `ℚ` are both kept in lowest terms with a
positive denominator, so numerator and denominator agree. -/
def is_strong_beat (position : ℚ) : Bool :=
  decide (position.num % (position.den : ℤ) = 0)

/-- `is_in_mode(pitch, tonic, mode)`: `(pitch - tonic) % 12` (Python `%` on
ints is euclidean remainder for a positive modulus, matching `Int.emod`) is in
the mode's offset set. -/
def is_in_mode (pitch tonic : ℤ) (mode : Mode) : Bool :=
  decide ((pitch - tonic) % 12 ∈ mode.offsets)

/-- Python `range(a, b)` over integers. -/
def intRange (a b : ℤ) : List ℤ :=
  (List.range (b - a).toNat).map (fun k => a + (k : ℤ))

/-- `generate_possible_notes(cf_note, species, mode)`: all pitches within
±12 semitones of the cantus-firmus pitch that are in the mode (tonic taken to
be the cantus-firmus note's own pitch), with a species-dependent duration and
the cantus-firmus note's position.  In the FIFTH-species branch the source
binds a local `durations` list that it never uses and keeps
`duration = cf_note.duration`. -/
def generate_possible_notes (cf_note : Note) (species : Species) (mode : Mode) :
    List Note :=
  let possible_pitches :=
    (intRange (cf_note.pitch - 12) (cf_note.pitch + 13)).filter
      (fun p => is_in_mode p cf_note.pitch mode)
  let duration : ℚ :=
    match species with
    | .FIRST => cf_note.duration
    | .SECOND => cf_note.duration / 2
    | .THIRD => cf_note.duration / 4
    | .FOURTH => cf_note.duration
    | .FIFTH => cf_note.duration
  possible_pitches.map (fun pitch => ⟨pitch, duration, cf_note.position⟩)

/-! ## Python exception plumbing -/

/-- Python list subscript `l[i]`, with Python's negative-index convention;
an out-of-range access raises IndexError. -/
def pyGet {α : Type} (l : List α) (i : ℤ) : Except String α :=
  let j : ℤ := if i < 0 then (l.length : ℤ) + i else i
  if 0 ≤ j then
    match l.get? j.toNat with
    | some a => .ok a
    | none => .error "IndexError: list index out of range"
  else .error "IndexError: list index out of range"

/-- Accumulator loop of `exMapM` (tail recursion keeps the evaluation
stack shallow; the elements are still visited left to right). -/
def exMapMGo {α β : Type} (f : α → Except String β) :
    List β → List α → Except String (List β)
  | acc, [] => .ok acc.reverse
  | acc, x :: xs => do
    let y ← f x
    exMapMGo f (y :: acc) xs

/-- Effectful map, modelling a Python `for` loop whose body may raise. -/
def exMapM {α β : Type} (f : α → Except String β) (l : List α) :
    Except String (List β) :=
  exMapMGo f [] l

/-- Scan of Python `max(l, key=key)`, carrying the best element together with
its key (CPython computes the key once per element). -/
def pyMaxByGo {α : Type} (key : α → ℚ) : α × ℚ → List α → α
  | (b, _), [] => b
  | (b, kb), y :: ys =>
    let ky := key y
    if ky > kb then pyMaxByGo key (y, ky) ys else pyMaxByGo key (b, kb) ys

/-- Python `max(l, key=key)`: the first element attaining the maximal key;
raises ValueError on an empty sequence. -/
def pyMaxBy {α : Type} (key : α → ℚ) : List α → Except String α
  | [] => .error "ValueError: max() arg is an empty sequence"
  | x :: xs => .ok (pyMaxByGo key (x, key x) xs)

/-- Python `max(l)` on a list of numbers. -/
def pyMaxVal (l : List ℚ) : Except String ℚ :=
  pyMaxBy (fun q => q) l

/-- Python `max(l, key=key)` with an effectful key (the key itself may raise,
as in `max(population, key=lambda x: evaluate_fitness(...))`). -/
def pyMaxByM {α : Type} (key : α → Except String ℚ) (l : List α) :
    Except String α := do
  let ks ← exMapM key l
  let best ← pyMaxBy (fun p => p.2) (l.zip ks)
  pure best.1

/-! ## counterpoint_rules.py -/

/-- Shared final line of every validator:
`return len(errors) == 0, errors`. -/
def finalizeRules (es : Except String (List String)) :
    Except String (Bool × List String) := do
  let errors ← es
  pure (errors.isEmpty, errors)

/-- Loop body of `check_first_species_rules` for index `i` of
`enumerate(zip(counterpoint, cantus_firmus))`: duration mismatch, dissonant
vertical, and (for `i > 0`) parallel perfect motion. -/
def firstBody (cp cf : List Note) (i : ℕ) (cp_note cf_note : Note) :
    Except String (List String) := do
  let e1 := if cp_note.duration ≠ cf_note.duration then
      [s!"Note duration mismatch at position {i}"] else []
  let interval := calculate_interval cp_note.pitch cf_note.pitch
  let e2 := if is_consonant interval = false then
      [s!"Dissonant interval ({interval}) at position {i}"] else []
  let e3 ← if 0 < i then do
      let prev_cp ← pyGet cp ((i : ℤ) - 1)
      let prev_cf ← pyGet cf ((i : ℤ) - 1)
      pure (if check_parallel_motion prev_cp.pitch cp_note.pitch
          prev_cf.pitch cf_note.pitch = true then
        [s!"Parallel perfect consonance at position {i}"] else [])
    else pure ([] : List String)
  pure (e1 ++ e2 ++ e3)

/-- The `for i, (cp_note, cf_note) in enumerate(zip(...))` loop of
`check_first_species_rules`, with `i` carried explicitly. -/
def firstGo (cp cf : List Note) : ℕ → List (Note × Note) → Except String (List String)
  | _, [] => pure []
  | i, (cp_note, cf_note) :: rest => do
    let e ← firstBody cp cf i cp_note cf_note
    let es ← firstGo cp cf (i + 1) rest
    pure (e ++ es)

/-- Error list of `check_first_species_rules`, in the order the source appends:
length check, per-pair loop, opening vertical, closing vertical, penultimate
measure (the source literally tests membership in `[8, 9]`). -/
def check_first_errors (cp cf : List Note) : Except String (List String) := do
  let e0 := if cp.length ≠ cf.length then
      ["Counterpoint should have the same number of notes as the cantus firmus"]
    else []
  let loopErrs ← firstGo cp cf 0 (cp.zip cf)
  let b0 ← pyGet cp 0
  let f0 ← pyGet cf 0
  let e1 := if is_perfect_consonance (calculate_interval b0.pitch f0.pitch) = false
    then ["Counterpoint should begin with a perfect consonance"] else []
  let bl ← pyGet cp (-1)
  let fl ← pyGet cf (-1)
  let e2 := if is_perfect_consonance (calculate_interval bl.pitch fl.pitch) = false
    then ["Counterpoint should end with a perfect consonance"] else []
  let e3 ← if 1 < cp.length then do
      let p2 ← pyGet cp (-2)
      let f2 ← pyGet cf (-2)
      let penultimate_interval := calculate_interval p2.pitch f2.pitch
      pure (if penultimate_interval ∈ [8, 9] then ([] : List String)
        else ["Penultimate measure should be a major sixth or minor third"])
    else pure ([] : List String)
  pure (e0 ++ loopErrs ++ e1 ++ e2 ++ e3)

/-- `check_first_species_rules(counterpoint, cantus_firmus)`. -/
def check_first_species_rules (cp cf : List Note) :
    Except String (Bool × List String) :=
  finalizeRules (check_first_errors cp cf)

/-- Strong-beat consonance check shared by the second- and third-species
loops: a dissonant vertical on the strong subdivision is always flagged. -/
def strong_beat_err (cp_pitch cf_pitch : ℤ) (i : ℕ) : List String :=
  if is_consonant (calculate_interval cp_pitch cf_pitch) = false then
    [s!"Dissonant interval on strong beat at position {i}"] else []

/-- Weak-beat check of `check_second_species_rules`: a violation is appended
unless the vertical is consonant, or it is a major second / major seventh
(`in [2, 11]`) that is a passing tone between the strong-beat pitch and the
following pitch. -/
def second_weak_err (strong_pitch weak_pitch next_pitch cf_pitch : ℤ) (pos : ℕ) :
    List String :=
  let weak_interval := calculate_interval weak_pitch cf_pitch
  if is_consonant weak_interval = false ∧
      (decide (weak_interval ∈ [2, 11]) &&
        is_passing_tone strong_pitch weak_pitch next_pitch) = false then
    [s!"Invalid weak beat interval at position {pos}"] else []

/-- Loop body of `check_second_species_rules` for an even index `i`. -/
def secondBody (cp cf : List Note) (i : ℕ) : Except String (List String) := do
  let cp_strong ← pyGet cp (i : ℤ)
  let cf_note ← pyGet cf ((i : ℤ) / 2)
  let strongErrs := strong_beat_err cp_strong.pitch cf_note.pitch i
  if i + 1 < cp.length then do
    let cp_weak ← pyGet cp ((i : ℤ) + 1)
    let next_pitch ← if i + 2 < cp.length then do
        let nn ← pyGet cp ((i : ℤ) + 2)
        pure nn.pitch
      else pure cf_note.pitch
    pure (strongErrs ++
      second_weak_err cp_strong.pitch cp_weak.pitch next_pitch cf_note.pitch (i + 1))
  else pure strongErrs

/-- Python `range(0, n, step)`. -/
def stepRange (step n : ℕ) : List ℕ :=
  (List.range ((n + step - 1) / step)).map (fun k => k * step)

/-- The `for i in range(0, len(counterpoint), 2)` loop of
`check_second_species_rules`. -/
def secondGo (cp cf : List Note) : List ℕ → Except String (List String)
  | [] => pure []
  | i :: rest => do
    let e ← secondBody cp cf i
    let es ← secondGo cp cf rest
    pure (e ++ es)

/-- Error list of `check_second_species_rules`. -/
def check_second_errors (cp cf : List Note) : Except String (List String) := do
  let e0 := if cp.length ≠ 2 * cf.length then
      ["Counterpoint should have twice as many notes as the cantus firmus"]
    else []
  let loopErrs ← secondGo cp cf (stepRange 2 cp.length)
  let b0 ← pyGet cp 0
  let f0 ← pyGet cf 0
  let e1 := if is_perfect_consonance (calculate_interval b0.pitch f0.pitch) = false
    then ["Counterpoint should begin with a perfect consonance"] else []
  let bl ← pyGet cp (-1)
  let fl ← pyGet cf (-1)
  let e2 := if is_perfect_consonance (calculate_interval bl.pitch fl.pitch) = false
    then ["Counterpoint should end with a perfect consonance"] else []
  pure (e0 ++ loopErrs ++ e1 ++ e2)

/-- `check_second_species_rules(counterpoint, cantus_firmus)`. -/
def check_second_species_rules (cp cf : List Note) :
    Except String (Bool × List String) :=
  finalizeRules (check_second_errors cp cf)

/-- Inner quarter-note check of `check_third_species_rules` (`j in [1, 2, 3]`):
a dissonance is flagged unless it is a major second / major seventh passing
tone between its neighbours. -/
def third_weak_err (prev_pitch cur_pitch next_pitch cf_pitch : ℤ) (pos : ℕ) :
    List String :=
  let interval := calculate_interval cur_pitch cf_pitch
  if is_consonant interval = false then
    if (decide (interval ∈ [2, 11]) &&
        is_passing_tone prev_pitch cur_pitch next_pitch) = false then
      [s!"Invalid interval at position {pos}"]
    else []
  else []

/-- Loop body of `check_third_species_rules` for an index `i` divisible by 4. -/
def thirdBody (cp cf : List Note) (i : ℕ) : Except String (List String) := do
  let cf_note ← pyGet cf ((i : ℤ) / 4)
  let c0 ← pyGet cp (i : ℤ)
  let strongErrs := strong_beat_err c0.pitch cf_note.pitch i
  let inner ← exMapM (fun (j : ℕ) =>
    if i + j < cp.length then do
      let prev ← pyGet cp ((i : ℤ) + (j : ℤ) - 1)
      let cur ← pyGet cp ((i : ℤ) + (j : ℤ))
      let next_pitch ← if i + j + 1 < cp.length then do
          let nn ← pyGet cp ((i : ℤ) + (j : ℤ) + 1)
          pure nn.pitch
        else pure cf_note.pitch
      pure (third_weak_err prev.pitch cur.pitch next_pitch cf_note.pitch (i + j))
    else pure ([] : List String)) [1, 2, 3]
  pure (strongErrs ++ inner.flatten)

/-- The `for i in range(0, len(counterpoint), 4)` loop of
`check_third_species_rules`. -/
def thirdGo (cp cf : List Note) : List ℕ → Except String (List String)
  | [] => pure []
  | i :: rest => do
    let e ← thirdBody cp cf i
    let es ← thirdGo cp cf rest
    pure (e ++ es)

/-- Error list of `check_third_species_rules`. -/
def check_third_errors (cp cf : List Note) : Except String (List String) := do
  let e0 := if cp.length ≠ 4 * cf.length then
      ["Counterpoint should have four times as many notes as the cantus firmus"]
    else []
  let loopErrs ← thirdGo cp cf (stepRange 4 cp.length)
  let b0 ← pyGet cp 0
  let f0 ← pyGet cf 0
  let e1 := if is_perfect_consonance (calculate_interval b0.pitch f0.pitch) = false
    then ["Counterpoint should begin with a perfect consonance"] else []
  let bl ← pyGet cp (-1)
  let fl ← pyGet cf (-1)
  let e2 := if is_perfect_consonance (calculate_interval bl.pitch fl.pitch) = false
    then ["Counterpoint should end with a perfect consonance"] else []
  pure (e0 ++ loopErrs ++ e1 ++ e2)

/-- `check_third_species_rules(counterpoint, cantus_firmus)`. -/
def check_third_species_rules (cp cf : List Note) :
    Except String (Bool × List String) :=
  finalizeRules (check_third_errors cp cf)

/-- Loop body of `check_fourth_species_rules` for an even index `i`.  Note the
source's `if resolution_interval and not is_valid_suspension_resolution(...)`:
a `None` resolution interval and a resolution interval of `0` (falsy in
Python) both skip the resolution check. -/
def fourthBody (cp cf : List Note) (i : ℕ) : Except String (List String) := do
  let cf_note ← pyGet cf ((i : ℤ) / 2)
  if 0 < i then do
    let prev_cp ← pyGet cp ((i : ℤ) - 1)
    let curr_cp ← pyGet cp (i : ℤ)
    let next_cp ← if i + 1 < cp.length then do
        let x ← pyGet cp ((i : ℤ) + 1)
        pure (some x)
      else pure (none : Option Note)
    let prev_cf ← pyGet cf (((i : ℤ) - 1) / 2)
    let preparation_interval := calculate_interval prev_cp.pitch prev_cf.pitch
    let suspension_interval := calculate_interval curr_cp.pitch cf_note.pitch
    let resolution_interval : Option ℕ :=
      next_cp.map (fun nb => calculate_interval nb.pitch cf_note.pitch)
    let e1 := if is_valid_suspension_preparation preparation_interval = false then
        [s!"Invalid preparation interval at position {i - 1}"] else []
    let e2 := if is_valid_suspension suspension_interval = false then
        [s!"Invalid suspension interval at position {i}"] else []
    let e3 := match resolution_interval with
      | some r =>
        if r ≠ 0 ∧ is_valid_suspension_resolution r = false then
          [s!"Invalid resolution interval at position {i + 1}"] else []
      | none => []
    let e4 := match next_cp with
      | some nb =>
        if is_downward_resolution curr_cp.pitch nb.pitch = false then
          [s!"Suspension not resolved downward at position {i + 1}"] else []
      | none => []
    pure (e1 ++ e2 ++ e3 ++ e4)
  else pure []

/-- The `for i in range(0, len(counterpoint), 2)` loop of
`check_fourth_species_rules`. -/
def fourthGo (cp cf : List Note) : List ℕ → Except String (List String)
  | [] => pure []
  | i :: rest => do
    let e ← fourthBody cp cf i
    let es ← fourthGo cp cf rest
    pure (e ++ es)

/-- Error list of `check_fourth_species_rules`. -/
def check_fourth_errors (cp cf : List Note) : Except String (List String) := do
  let e0 := if cp.length ≠ 2 * cf.length then
      ["Counterpoint should have twice as many notes as the cantus firmus"]
    else []
  let loopErrs ← fourthGo cp cf (stepRange 2 cp.length)
  let b0 ← pyGet cp 0
  let f0 ← pyGet cf 0
  let e1 := if is_perfect_consonance (calculate_interval b0.pitch f0.pitch) = false
    then ["Counterpoint should begin with a perfect consonance"] else []
  let bl ← pyGet cp (-1)
  let fl ← pyGet cf (-1)
  let e2 := if is_perfect_consonance (calculate_interval bl.pitch fl.pitch) = false
    then ["Counterpoint should end with a perfect consonance"] else []
  pure (e0 ++ loopErrs ++ e1 ++ e2)

/-- `check_fourth_species_rules(counterpoint, cantus_firmus)`. -/
def check_fourth_species_rules (cp cf : List Note) :
    Except String (Bool × List String) :=
  finalizeRules (check_fourth_errors cp cf)

/-- The `while current_measure < len(cantus_firmus) and
cantus_firmus[current_measure].position <= cp_note.position` loop of
`check_fifth_species_rules`; the loop advances at most `len(cantus_firmus)`
times, so fuel `cf.length` makes the model total. -/
def advanceMeasure (cf : List Note) (pos : ℚ) : ℕ → ℕ → ℕ
  | 0, m => m
  | fuel + 1, m =>
    match cf.get? m with
    | some n => if n.position ≤ pos then advanceMeasure cf pos fuel (m + 1) else m
    | none => m

/-- Strong-beat / weak-beat dissonance block of the `check_fifth_species_rules`
loop body: on a strong beat a dissonant vertical is flagged; on a weak beat a
dissonant vertical is flagged only for inner notes that are not passing
tones. -/
def fifthBeatErrs (cp : List Note) (i : ℕ) (cp_note cf_note : Note) :
    Except String (List String) := do
  let interval := calculate_interval cp_note.pitch cf_note.pitch
  let ps := toString cp_note.position
  if is_strong_beat cp_note.position then
    pure (if is_consonant interval = false then
      [s!"Dissonant interval on strong beat at position {ps}"] else [])
  else if is_consonant interval = false then
    (if 0 < i ∧ i < cp.length - 1 then do
      let prev ← pyGet cp ((i : ℤ) - 1)
      let next ← pyGet cp ((i : ℤ) + 1)
      pure (if is_passing_tone prev.pitch cp_note.pitch next.pitch = false then
        [s!"Invalid dissonance on weak beat at position {ps}"] else [])
    else pure ([] : List String))
  else pure ([] : List String)

/-- Suspension block of the `check_fifth_species_rules` loop body: checked for
note pairs spaced by half a beat. -/
def fifthSuspensionErrs (cp : List Note) (i : ℕ) (cp_note cf_note : Note) :
    Except String (List String) := do
  let interval := calculate_interval cp_note.pitch cf_note.pitch
  let ps := toString cp_note.position
  if 0 < i then do
    let prev ← pyGet cp ((i : ℤ) - 1)
    if cp_note.position - prev.position = (1 : ℚ) / 2 then do
      let prev_interval := calculate_interval prev.pitch cf_note.pitch
      if is_valid_suspension prev_interval = true ∧
          is_valid_suspension_resolution interval = true ∧
          is_downward_resolution prev.pitch cp_note.pitch = true then
        pure ([] : List String)
      else if is_consonant interval = false then
        pure [s!"Invalid suspension or dissonance treatment at position {ps}"]
      else pure ([] : List String)
    else pure ([] : List String)
  else pure ([] : List String)

/-- The `for i, cp_note in enumerate(counterpoint)` loop of
`check_fifth_species_rules`, carrying `current_measure` and the index. -/
def fifthGo (cp cf : List Note) : ℕ → ℕ → List Note → Except String (List String)
  | _, _, [] => pure []
  | cm, i, cp_note :: rest => do
    let cm2 := advanceMeasure cf cp_note.position cf.length cm
    let cf_note ← pyGet cf ((cm2 : ℤ) - 1)
    let e1 ← fifthBeatErrs cp i cp_note cf_note
    let e2 ← fifthSuspensionErrs cp i cp_note cf_note
    let es ← fifthGo cp cf cm2 (i + 1) rest
    pure (e1 ++ e2 ++ es)

/-- Error list of `check_fifth_species_rules`. -/
def check_fifth_errors (cp cf : List Note) : Except String (List String) := do
  let cf_duration := (cf.map Note.duration).sum
  let cp_duration := (cp.map Note.duration).sum
  let e0 := if cp_duration ≠ cf_duration then
      ["Total duration of counterpoint should match the cantus firmus"]
    else []
  let loopErrs ← fifthGo cp cf 0 0 cp
  let b0 ← pyGet cp 0
  let f0 ← pyGet cf 0
  let e1 := if is_perfect_consonance (calculate_interval b0.pitch f0.pitch) = false
    then ["Counterpoint should begin with a perfect consonance"] else []
  let bl ← pyGet cp (-1)
  let fl ← pyGet cf (-1)
  let e2 := if is_perfect_consonance (calculate_interval bl.pitch fl.pitch) = false
    then ["Counterpoint should end with a perfect consonance"] else []
  pure (e0 ++ loopErrs ++ e1 ++ e2)

/-- `check_fifth_species_rules(counterpoint, cantus_firmus)`. -/
def check_fifth_species_rules (cp cf : List Note) :
    Except String (Bool × List String) :=
  finalizeRules (check_fifth_errors cp cf)

/-! ## counterpoint_generator.py -/

/-- `CounterpointGraph` (a `networkx.DiGraph` of `(cf_note, cp_note)` pairs).
Python hashes the freshly-constructed `Note` tuples by identity, so every
`add_node`/`add_edge` call inserts; structural equality coincides with that
behaviour whenever the cantus-firmus positions are distinct (every generated
pair then differs structurally), which is the program's precondition. -/
structure CounterpointGraph where
  nodes : List (Note × Note)
  edges : List ((Note × Note) × (Note × Note) × ℚ)
deriving DecidableEq, Repr

/-- `CounterpointGraph.add_node`. -/
def CounterpointGraph.add_node (g : CounterpointGraph) (note_pair : Note × Note) :
    CounterpointGraph :=
  { g with nodes := g.nodes ++ [note_pair] }

/-- `CounterpointGraph.add_edge`. -/
def CounterpointGraph.add_edge (g : CounterpointGraph)
    (from_pair to_pair : Note × Note) (weight : ℚ) : CounterpointGraph :=
  { g with edges := g.edges ++ [(from_pair, to_pair, weight)] }

/-- `CounterpointGraph.get_nodes_at_position`: the nodes whose cantus-firmus
component sits at `position`, in insertion order. -/
def CounterpointGraph.get_nodes_at_position (g : CounterpointGraph) (position : ℚ) :
    List (Note × Note) :=
  g.nodes.filter (fun node => decide (node.1.position = position))

/-- `networkx` successors of a node: destinations of its outgoing edges, in
insertion order. -/
def CounterpointGraph.successors (g : CounterpointGraph) (node : Note × Note) :
    List (Note × Note) :=
  (g.edges.filter (fun e => decide (e.1 = node))).map (fun e => e.2.1)

/-- `is_valid_transition`: melodic leap at most an octave, consonant vertical
at the destination. -/
def is_valid_transition (prev_node current_node : Note × Note)
    (_species : Species) (_mode : Mode) : Bool :=
  let prev_cp := prev_node.2
  let curr_cf := current_node.1
  let curr_cp := current_node.2
  if decide ((prev_cp.pitch - curr_cp.pitch).natAbs > 12) then false
  else if is_consonant (calculate_interval curr_cp.pitch curr_cf.pitch) = false then
    false
  else true

/-- `calculate_transition_weight`: 1.0, ×1.2 for contrary motion, ×1.1 for an
imperfect-consonance destination vertical. -/
def calculate_transition_weight (prev_node current_node : Note × Note)
    (_species : Species) (_mode : Mode) : ℚ :=
  let prev_cf := prev_node.1
  let prev_cp := prev_node.2
  let curr_cf := current_node.1
  let curr_cp := current_node.2
  let weight : ℚ := 1
  let weight := if (curr_cf.pitch - prev_cf.pitch) * (curr_cp.pitch - prev_cp.pitch) < 0
    then weight * (6 / 5) else weight
  let weight := if calculate_interval curr_cp.pitch curr_cf.pitch ∈ [3, 4, 8, 9]
    then weight * (11 / 10) else weight
  weight

/-- The double loop `for prev_node in prev_nodes: for current_node in
current_nodes:` adding the valid weighted edges. -/
def addEdges (g : CounterpointGraph) (prevs currs : List (Note × Note))
    (species : Species) (mode : Mode) : CounterpointGraph :=
  prevs.foldl (fun gr prev_node =>
    currs.foldl (fun gr2 current_node =>
      if is_valid_transition prev_node current_node species mode then
        gr2.add_edge prev_node current_node
          (calculate_transition_weight prev_node current_node species mode)
      else gr2) gr) g

/-- The `for i, cf_note in enumerate(cf_notes)` loop of
`initialize_counterpoint_graph`, with the index carried explicitly. -/
def initGo (cf : List Note) (species : Species) (mode : Mode) :
    ℕ → List Note → CounterpointGraph → Except String CounterpointGraph
  | _, [], g => pure g
  | i, cf_note :: rest, g => do
    let g1 := (generate_possible_notes cf_note species mode).foldl
      (fun gr cp_note => gr.add_node (cf_note, cp_note)) g
    let g2 ← if 0 < i then do
        let prev_cf ← pyGet cf ((i : ℤ) - 1)
        let prev_nodes := g1.get_nodes_at_position prev_cf.position
        let current_nodes := g1.get_nodes_at_position cf_note.position
        pure (addEdges g1 prev_nodes current_nodes species mode)
      else pure g1
    initGo cf species mode (i + 1) rest g2

/-- `initialize_counterpoint_graph(cf_voice, species, mode)`. -/
def initialize_counterpoint_graph (cf_voice : Voice) (species : Species)
    (mode : Mode) : Except String CounterpointGraph :=
  initGo cf_voice.notes species mode 0 cf_voice.notes ⟨[], []⟩

/-- The random-draw monad: an `Except` computation threading the index of the
next oracle draw. -/
abbrev PyR (α : Type) : Type := StateT ℕ (Except String) α

/-- Lift a draw-free computation. -/
def liftE {α : Type} (e : Except String α) : PyR α := fun c => do
  let a ← e
  pure (a, c)

/-- `random.choice l`: one draw, index `rng c % l.length`; raises on an empty
sequence as Python does. -/
def randChoice {α : Type} (rng : ℕ → ℕ) (l : List α) : PyR α := fun c =>
  match l.get? (rng c % l.length) with
  | some x => .ok (x, c + 1)
  | none => .error "IndexError: cannot choose from an empty sequence"

/-- `random.randint a b` (both ends inclusive): one draw; raises on an empty
range as Python does. -/
def randIntIncl (rng : ℕ → ℕ) (a b : ℤ) : PyR ℤ := fun c =>
  if a > b then .error "ValueError: empty range for randint"
  else .ok (a + (rng c : ℤ) % (b - a + 1), c + 1)

/-- `random.random() < rate`: one draw, mapped into [0, 1) with three decimal
digits of granularity (any distribution is faithful here; the claims hold for
every oracle). -/
def randBernoulli (rng : ℕ → ℕ) (rate : ℚ) : PyR Bool := fun c =>
  .ok (decide (((rng c % 1000 : ℕ) : ℚ) / 1000 < rate), c + 1)

/-- Accumulator loop of `stMapM`. -/
def stMapMGo {α β : Type} (f : α → PyR β) : List β → List α → PyR (List β)
  | acc, [] => pure acc.reverse
  | acc, x :: xs => do
    let y ← f x
    stMapMGo f (y :: acc) xs

/-- Effectful map in `PyR`, modelling a Python loop collecting one value per
element. -/
def stMapM {α β : Type} (f : α → PyR β) (l : List α) : PyR (List β) :=
  stMapMGo f [] l

/-- One pick of `random.sample` without replacement: a drawn index into the
remaining population. -/
def sampleGo {α : Type} (rng : ℕ → ℕ) : ℕ → List α → PyR (List α)
  | 0, _ => pure []
  | k + 1, l => fun c =>
    match l.get? (rng c % l.length) with
    | some x => (do
        let rest ← sampleGo rng k (l.eraseIdx (rng c % l.length))
        pure (x :: rest)) (c + 1)
    | none => .error "IndexError: cannot choose from an empty sequence"

/-- `random.sample(l, k)`: raises when the sample is larger than the
population, otherwise picks `k` distinct positions. -/
def randSample {α : Type} (rng : ℕ → ℕ) (l : List α) (k : ℕ) : PyR (List α) :=
  if k > l.length then fun _ =>
    .error "ValueError: Sample larger than population or is negative"
  else sampleGo rng k l

/-- The graph walk of `generate_initial_population` (`while True: ... break`),
with fuel; a run that returns `ok` coincides with a terminating Python run. -/
def walkFrom (g : CounterpointGraph) (rng : ℕ → ℕ) :
    ℕ → (Note × Note) → PyR (List Note)
  | 0, _ => fun _ => .error "fuel exhausted: diverging graph walk"
  | fuel + 1, node => do
    let next_nodes := g.successors node
    if next_nodes.isEmpty then pure []
    else do
      let current_node ← randChoice rng next_nodes
      let rest ← walkFrom g rng fuel current_node
      pure (current_node.2 :: rest)

/-- `generate_initial_population(cp_graph, population_size)`: each individual
starts from a random node at position `Fraction(0, 1)` and extends along
random successors until a dead end. -/
def generate_initial_population (cp_graph : CounterpointGraph)
    (population_size : ℕ) (rng : ℕ → ℕ) : PyR (List (List Note)) :=
  stMapM (fun _ => do
      let current_node ← randChoice rng (cp_graph.get_nodes_at_position 0)
      let rest ← walkFrom cp_graph rng (cp_graph.edges.length + 1) current_node
      pure (current_node.2 :: rest))
    (List.range population_size)

/-- `evaluate_melodic_aspects` (placeholder in the source: returns 0.5). -/
def evaluate_melodic_aspects (_counterpoint : List Note) : ℚ := 1 / 2

/-- `evaluate_harmonic_aspects` (placeholder: returns 0.5). -/
def evaluate_harmonic_aspects (_counterpoint _cantus_firmus : List Note) : ℚ := 1 / 2

/-- `evaluate_mode_adherence` (placeholder: returns 0.5). -/
def evaluate_mode_adherence (_counterpoint : List Note) (_mode : Mode) : ℚ := 1 / 2

/-- `evaluate_musicality` (placeholder: returns 0.5). -/
def evaluate_musicality (_counterpoint _cantus_firmus : List Note) : ℚ := 1 / 2

/-- The species dispatch at the top of `evaluate_fitness`. -/
def species_check (species : Species) (cp cf : List Note) :
    Except String (Bool × List String) :=
  match species with
  | .FIRST => check_first_species_rules cp cf
  | .SECOND => check_second_species_rules cp cf
  | .THIRD => check_third_species_rules cp cf
  | .FOURTH => check_fourth_species_rules cp cf
  | .FIFTH => check_fifth_species_rules cp cf

/-- `evaluate_fitness(counterpoint, cf_voice, species, mode)`: 0.0 when the
species validator reports invalid; otherwise `1.0 - 0.1*len(errors)` plus the
weighted placeholder sub-scores, capped at 1.0. -/
def evaluate_fitness (counterpoint : List Note) (cf_voice : Voice)
    (species : Species) (mode : Mode) : Except String ℚ := do
  let (valid, errors) ← species_check species counterpoint cf_voice.notes
  if valid = false then pure 0
  else
    let score : ℚ := 1 - (errors.length : ℚ) * (1 / 10)
    let melodic_score := evaluate_melodic_aspects counterpoint
    let score := score + melodic_score * (3 / 10)
    let harmonic_score := evaluate_harmonic_aspects counterpoint cf_voice.notes
    let score := score + harmonic_score * (3 / 10)
    let mode_score := evaluate_mode_adherence counterpoint mode
    let score := score + mode_score * (1 / 5)
    let musicality_score := evaluate_musicality counterpoint cf_voice.notes
    let score := score + musicality_score * (1 / 5)
    pure (if score ≤ 1 then score else 1)

/-- `select_parents(population, fitness_scores)`: tournament selection with
tournament size 5, one tournament per population slot. -/
def select_parents (population : List (List Note)) (fitness_scores : List ℚ)
    (rng : ℕ → ℕ) : PyR (List (List Note)) :=
  stMapM (fun _ => do
      let tournament ← randSample rng (population.zip fitness_scores) 5
      let winner ← liftE (pyMaxBy (fun x => x.2) tournament)
      pure winner.1)
    (List.range population.length)

/-- `crossover(parent1, parent2)`: raises the length-mismatch ValueError for
unequal parents, otherwise single-point crossover with cut point
`randint(1, len(parent1) - 1)` (itself a ValueError for parents of length
0 or 1, since the randint range is then empty). -/
def crossover (rng : ℕ → ℕ) (parent1 parent2 : List Note) : PyR (List Note) :=
  if parent1.length ≠ parent2.length then fun _ =>
    .error "Parents must have the same length"
  else do
    let crossover_point ← randIntIncl rng 1 ((parent1.length : ℤ) - 1)
    pure (parent1.take crossover_point.toNat ++ parent2.drop crossover_point.toNat)

/-- `mutate(individual, mutation_rate)`: per-note Bernoulli trial; on trigger
the pitch moves by one of {-2, -1, 1, 2} clamped into [0, 127]; duration and
position are preserved. -/
def mutate (rng : ℕ → ℕ) (individual : List Note) (mutation_rate : ℚ) :
    PyR (List Note) :=
  stMapM (fun note => do
      let hit ← randBernoulli rng mutation_rate
      if hit then do
        let delta ← randChoice rng ([-2, -1, 1, 2] : List ℤ)
        let capped := if note.pitch + delta ≤ 127 then note.pitch + delta else 127
        let new_pitch := if capped ≤ 0 then 0 else capped
        pure (⟨new_pitch, note.duration, note.position⟩ : Note)
      else pure note)
    individual

/-- The `while len(new_population) < population_size` refill loop: each pass
appends exactly one crossover-and-mutation child. -/
def refillPop (rng : ℕ → ℕ) (parents : List (List Note)) :
    ℕ → List (List Note) → PyR (List (List Note))
  | 0, acc => pure acc
  | k + 1, acc => do
    let parent1 ← randChoice rng parents
    let parent2 ← randChoice rng parents
    let child ← crossover rng parent1 parent2
    let child2 ← mutate rng child (1 / 10)
    refillPop rng parents k (acc ++ [child2])

/-- The `for generation in range(max_generations)` loop of
`generate_counterpoint`: score the population, compute the generation's best
(the source binds it and prints; the binding can still raise on an empty
population, so it is kept), break when the best score is 1.0, otherwise
select parents and refill. -/
def gaLoop (cf_voice : Voice) (species : Species) (mode : Mode)
    (population_size : ℕ) (rng : ℕ → ℕ) :
    ℕ → List (List Note) → PyR (List (List Note))
  | 0, population => pure population
  | g + 1, population => do
    let fitness_scores ← liftE (exMapM
      (fun individual => evaluate_fitness individual cf_voice species mode)
      population)
    let _best_individual ← liftE (pyMaxBy (fun x => x.2)
      (population.zip fitness_scores))
    let mx ← liftE (pyMaxVal fitness_scores)
    if mx = 1 then pure population
    else do
      let parents ← select_parents population fitness_scores rng
      let new_population ← refillPop rng parents population_size []
      gaLoop cf_voice species mode population_size rng g new_population

/-- The `for i in range(1, n)` dp-filling loop of `optimize_counterpoint`:
`dp[i][pitch] = max(dp[i-1]) + localFitness(pitch, cf[i])`. -/
def dpRows (cp cf : List Note) (species : Species) (mode : Mode) :
    ℕ → ℕ → List ℚ → Except String (List (List ℚ))
  | _, 0, _ => pure []
  | i, fuel + 1, prev => do
    let ci ← pyGet cp (i : ℤ)
    let best_prev_score ← pyMaxVal prev
    let cfi ← pyGet cf (i : ℤ)
    let row ← exMapM (fun (p : ℕ) => do
        let q ← evaluate_fitness [⟨(p : ℤ), ci.duration, ci.position⟩]
          ⟨[cfi]⟩ species mode
        pure (best_prev_score + q))
      (List.range 128)
    let rest ← dpRows cp cf species mode (i + 1) fuel row
    pure (row :: rest)

/-- `optimize_counterpoint(counterpoint, cf_voice, species, mode)`: per-note
DP over pitches 0..127 (fitness of the singleton voice against the singleton
cantus-firmus note), whose "best previous" term and backtracking both ignore
which prior pitch was chosen; the result copies the input notes' durations and
positions and rebuilds exactly one note per cantus-firmus note. -/
def optimize_counterpoint (counterpoint : List Note) (cf_voice : Voice)
    (species : Species) (mode : Mode) : Except String (List Note) := do
  let cf_notes := cf_voice.notes
  let n := cf_notes.length
  let c0 ← pyGet counterpoint 0
  let cf0 ← pyGet cf_notes 0
  let row0 ← exMapM (fun (p : ℕ) =>
      evaluate_fitness [⟨(p : ℤ), c0.duration, c0.position⟩] ⟨[cf0]⟩ species mode)
    (List.range 128)
  let rest ← dpRows counterpoint cf_notes species mode 1 (n - 1) row0
  let dp := row0 :: rest
  let lastRow ← pyGet dp ((n : ℤ) - 1)
  let current_pitch ← pyMaxBy (fun p => lastRow.getD p 0) (List.range 128)
  let lastCp ← pyGet counterpoint (-1)
  let tail ← exMapM (fun (i : ℕ) => do
      let row ← pyGet dp (i : ℤ)
      let best_pitch ← pyMaxBy (fun p => row.getD p 0) (List.range 128)
      let ci ← pyGet counterpoint (i : ℤ)
      pure (⟨(best_pitch : ℤ), ci.duration, ci.position⟩ : Note))
    ((List.range (n - 1)).reverse)
  pure ((((⟨(current_pitch : ℤ), lastCp.duration, lastCp.position⟩ : Note) :: tail)).reverse)

/-- `generate_counterpoint(cantus_firmus, species, mode, population_size,
max_generations)` (the source defaults: population_size 100,
max_generations 50): graph construction, population seeding, the GA loop, the
final best-of-population pick and the DP refinement whose output is
returned. -/
def generate_counterpoint (cantus_firmus : List Note) (species : Species)
    (mode : Mode) (population_size max_generations : ℕ) (rng : ℕ → ℕ) :
    PyR (List Note) := do
  let cf_voice : Voice := ⟨cantus_firmus⟩
  let cp_graph ← liftE (initialize_counterpoint_graph cf_voice species mode)
  let population ← generate_initial_population cp_graph population_size rng
  let finalPop ← gaLoop cf_voice species mode population_size rng
    max_generations population
  let best_counterpoint ← liftE (pyMaxByM
    (fun x => evaluate_fitness x cf_voice species mode) finalPop)
  liftE (optimize_counterpoint best_counterpoint cf_voice species mode)

/-! ## Plumbing lemmas -/

theorem exBind_ok {α β : Type} {x : Except String α} {f : α → Except String β}
    {b : β} : x >>= f = .ok b ↔ ∃ a, x = .ok a ∧ f a = .ok b := by
  cases x with
  | error e => simp [Bind.bind, Except.bind]
  | ok a => simp [Bind.bind, Except.bind]

theorem exPure_eq {α : Type} (a : α) : (pure a : Except String α) = .ok a := rfl

theorem exMap_ok {α β : Type} {x : Except String α} {f : α → β} {b : β} :
    Except.map f x = .ok b ↔ ∃ a, x = .ok a ∧ f a = b := by
  cases x <;> simp [Except.map]

theorem pyrBind_ok {α β : Type} {x : PyR α} {f : α → PyR β} {c c2 : ℕ} {b : β} :
    (x >>= f).run c = .ok (b, c2) ↔
      ∃ a c1, x.run c = .ok (a, c1) ∧ (f a).run c1 = .ok (b, c2) := by
  have hrw : (x >>= f).run c = x.run c >>= fun p => (f p.1).run p.2 := rfl
  rw [hrw]
  cases hx : x.run c with
  | error e => simp [Bind.bind, Except.bind]
  | ok p =>
    cases p with
    | mk a c1 =>
      simp only [Bind.bind, Except.bind]
      constructor
      · intro h
        exact ⟨a, c1, rfl, h⟩
      · rintro ⟨a1, c11, heq, h⟩
        cases heq
        exact h

theorem liftE_ok {α : Type} {e : Except String α} {c c2 : ℕ} {b : α} :
    (liftE e).run c = .ok (b, c2) ↔ e = .ok b ∧ c2 = c := by
  cases e with
  | error s =>
    constructor
    · intro h
      exact absurd h (by simp [liftE, StateT.run, Bind.bind, Except.bind])
    · rintro ⟨h, -⟩
      cases h
  | ok a =>
    constructor
    · intro h
      have h2 : (Except.ok (a, c) : Except String (α × ℕ)) = Except.ok (b, c2) := by
        simpa [liftE, StateT.run, Bind.bind, Except.bind, pure, Except.pure] using h
      cases h2
      exact ⟨rfl, rfl⟩
    · rintro ⟨h, rfl⟩
      cases h
      rfl

theorem pyGet_nonneg_isOk {α : Type} {l : List α} {i : ℤ} (h0 : 0 ≤ i)
    (h : i < l.length) : ∃ a, pyGet l i = .ok a := by
  have hlt : i.toNat < l.length := by omega
  refine ⟨l.get ⟨i.toNat, hlt⟩, ?_⟩
  simp only [pyGet]
  rw [if_neg (show ¬ i < 0 by omega), if_pos h0, List.get?_eq_get hlt]

theorem pyGet_neg_isOk {α : Type} {l : List α} {i : ℤ} (h0 : i < 0)
    (h : -(l.length : ℤ) ≤ i) : ∃ a, pyGet l i = .ok a := by
  have hlt : ((l.length : ℤ) + i).toNat < l.length := by omega
  refine ⟨l.get ⟨((l.length : ℤ) + i).toNat, hlt⟩, ?_⟩
  simp only [pyGet]
  rw [if_pos h0, if_pos (show (0 : ℤ) ≤ (l.length : ℤ) + i by omega),
    List.get?_eq_get hlt]

theorem pyGet_last_isOk {α : Type} {l : List α} (h : l ≠ []) :
    ∃ a, pyGet l (-1) = .ok a := by
  have hpos : 0 < l.length := List.length_pos.mpr h
  exact pyGet_neg_isOk (by omega) (by omega)

theorem pyGet_ok_ne_nil {α : Type} {l : List α} {i : ℤ} {a : α}
    (h : pyGet l i = .ok a) : l ≠ [] := by
  intro hnil
  subst hnil
  have hnone : ∀ n : ℕ, ([] : List α).get? n = none := fun n => by
    cases n <;> rfl
  simp only [pyGet, hnone] at h
  split at h <;> exact absurd h (by simp)

theorem exMapMGo_acc {α β : Type} (f : α → Except String β) :
    ∀ (l : List α) (acc : List β),
      exMapMGo f acc l = (exMapMGo f [] l).map (fun ys => acc.reverse ++ ys) := by
  intro l
  induction l with
  | nil =>
    intro acc
    simp [exMapMGo, Except.map]
  | cons x xs ih =>
    intro acc
    simp only [exMapMGo]
    cases hfx : f x with
    | error e => simp [Bind.bind, Except.bind, Except.map]
    | ok y =>
      simp only [Bind.bind, Except.bind]
      rw [ih (y :: acc), ih [y]]
      cases exMapMGo f [] xs with
      | error e => simp [Except.map]
      | ok ys => simp [Except.map, List.append_assoc]

theorem exMapM_nil {α β : Type} (f : α → Except String β) :
    exMapM f [] = .ok [] := rfl

theorem exMapM_cons {α β : Type} (f : α → Except String β) (x : α) (xs : List α) :
    exMapM f (x :: xs) =
      f x >>= fun y => (exMapM f xs).map (fun ys => y :: ys) := by
  simp only [exMapM, exMapMGo]
  cases hfx : f x with
  | error e => simp [Bind.bind, Except.bind]
  | ok y =>
    simp only [Bind.bind, Except.bind]
    rw [exMapMGo_acc f xs [y]]
    rfl

theorem exMapM_isOk_of {α β : Type} {f : α → Except String β} :
    ∀ {l : List α}, (∀ x ∈ l, ∃ y, f x = .ok y) → ∃ ys, exMapM f l = .ok ys := by
  intro l
  induction l with
  | nil => exact fun _ => ⟨[], rfl⟩
  | cons x xs ih =>
    intro hall
    obtain ⟨y, hy⟩ := hall x (List.mem_cons_self x xs)
    obtain ⟨ys, hys⟩ := ih (fun z hz => hall z (List.mem_cons_of_mem x hz))
    refine ⟨y :: ys, ?_⟩
    rw [exMapM_cons, hy]
    simp [Bind.bind, Except.bind, hys, Except.map]

theorem exMapM_ok_length {α β : Type} {f : α → Except String β} :
    ∀ {l : List α} {ys : List β}, exMapM f l = .ok ys → ys.length = l.length := by
  intro l
  induction l with
  | nil =>
    intro ys h
    rw [exMapM_nil] at h
    cases h
    rfl
  | cons x xs ih =>
    intro ys h
    rw [exMapM_cons] at h
    rw [exBind_ok] at h
    obtain ⟨y, -, h⟩ := h
    rw [exMap_ok] at h
    obtain ⟨zs, hzs, rfl⟩ := h
    simp [ih hzs]

theorem exMapM_ok_get {α β : Type} {f : α → Except String β} :
    ∀ {l : List α} {ys : List β} {k : ℕ} {x : α}, exMapM f l = .ok ys →
      l.get? k = some x → ∃ y, ys.get? k = some y ∧ f x = .ok y := by
  intro l
  induction l with
  | nil =>
    intro ys k x _ hx
    rw [List.get?_nil] at hx
    cases hx
  | cons a xs ih =>
    intro ys k x h hx
    rw [exMapM_cons, exBind_ok] at h
    obtain ⟨y, hy, h⟩ := h
    rw [exMap_ok] at h
    obtain ⟨zs, hzs, rfl⟩ := h
    cases k with
    | zero =>
      rw [List.get?_cons_zero] at hx
      cases hx
      exact ⟨y, rfl, hy⟩
    | succ k =>
      rw [List.get?_cons_succ] at hx
      simp only [List.get?_cons_succ]
      exact ih hzs hx

theorem pyMaxByGo_spec {α : Type} (key : α → ℚ) :
    ∀ (l : List α) (b : α), (pyMaxByGo key (b, key b) l = b ∨
        pyMaxByGo key (b, key b) l ∈ l) ∧
      key b ≤ key (pyMaxByGo key (b, key b) l) ∧
      ∀ y ∈ l, key y ≤ key (pyMaxByGo key (b, key b) l) := by
  intro l
  induction l with
  | nil => exact fun b => ⟨Or.inl rfl, le_refl _, by simp⟩
  | cons z zs ih =>
    intro b
    simp only [pyMaxByGo]
    by_cases hz : key z > key b
    · rw [if_pos hz]
      obtain ⟨hmem, hle, hall⟩ := ih z
      refine ⟨?_, ?_, ?_⟩
      · rcases hmem with h | h
        · exact Or.inr (by rw [h]; exact List.mem_cons_self z zs)
        · exact Or.inr (List.mem_cons_of_mem z h)
      · exact le_trans (le_of_lt hz) hle
      · intro y hy
        rcases List.mem_cons.mp hy with rfl | hy
        · exact hle
        · exact hall y hy
    · rw [if_neg hz]
      obtain ⟨hmem, hle, hall⟩ := ih b
      refine ⟨?_, hle, ?_⟩
      · rcases hmem with h | h
        · exact Or.inl h
        · exact Or.inr (List.mem_cons_of_mem z h)
      · intro y hy
        rcases List.mem_cons.mp hy with rfl | hy
        · exact le_trans (le_of_not_lt hz) hle
        · exact hall y hy

theorem pyMaxBy_spec {α : Type} {key : α → ℚ} {l : List α} {m : α}
    (h : pyMaxBy key l = .ok m) : m ∈ l ∧ ∀ y ∈ l, key y ≤ key m := by
  cases l with
  | nil => cases h
  | cons x xs =>
    simp only [pyMaxBy] at h
    cases h
    obtain ⟨hmem, hle, hall⟩ := pyMaxByGo_spec key xs x
    constructor
    · rcases hmem with h | h
      · rw [h]
        exact List.mem_cons_self x xs
      · exact List.mem_cons_of_mem x h
    · intro y hy
      rcases List.mem_cons.mp hy with rfl | hy
      · exact hle
      · exact hall y hy

theorem pyMaxBy_isOk {α : Type} (key : α → ℚ) {l : List α} (h : l ≠ []) :
    ∃ m, pyMaxBy key l = .ok m := by
  cases l with
  | nil => exact absurd rfl h
  | cons x xs => exact ⟨_, rfl⟩

theorem exBind_isOk {α β : Type} {x : Except String α} {f : α → Except String β}
    (hx : ∃ a, x = .ok a) (hf : ∀ a, ∃ b, f a = .ok b) :
    ∃ b, x >>= f = .ok b := by
  obtain ⟨a, ha⟩ := hx
  obtain ⟨b, hb⟩ := hf a
  refine ⟨b, ?_⟩
  rw [ha]
  exact hb

theorem exPure_isOk {α : Type} (a : α) : ∃ b, (pure a : Except String α) = .ok b :=
  ⟨a, rfl⟩

theorem finalizeRules_ok {es : Except String (List String)} {r : Bool × List String}
    (h : finalizeRules es = .ok r) : ∃ E, es = .ok E ∧ r = (E.isEmpty, E) := by
  unfold finalizeRules at h
  rw [exBind_ok] at h
  obtain ⟨E, hE, h⟩ := h
  cases h
  exact ⟨E, hE, rfl⟩

theorem finalizeRules_isOk {es : Except String (List String)}
    (h : ∃ E, es = .ok E) : ∃ E, finalizeRules es = .ok (E.isEmpty, E) := by
  obtain ⟨E, hE⟩ := h
  refine ⟨E, ?_⟩
  unfold finalizeRules
  rw [hE]
  rfl

theorem firstBody_isOk {cp cf : List Note} {i : ℕ} (hcp : i < cp.length)
    (hcf : i < cf.length) (p q : Note) : ∃ es, firstBody cp cf i p q = .ok es := by
  unfold firstBody
  by_cases hi : 0 < i
  · rw [if_pos hi]
    refine exBind_isOk (pyGet_nonneg_isOk (by omega) (by omega)) (fun a => ?_)
    refine exBind_isOk (pyGet_nonneg_isOk (by omega) (by omega)) (fun b => ?_)
    exact exPure_isOk _
  · rw [if_neg hi]
    exact exPure_isOk _

theorem firstGo_isOk {cp cf : List Note} :
    ∀ (l : List (Note × Note)) (i : ℕ), i + l.length ≤ cp.length →
      i + l.length ≤ cf.length → ∃ es, firstGo cp cf i l = .ok es := by
  intro l
  induction l with
  | nil => exact fun i _ _ => ⟨[], rfl⟩
  | cons hd rest ih =>
    intro i h1 h2
    cases hd with
    | mk p q =>
      simp only [firstGo]
      refine exBind_isOk (firstBody_isOk (by simp at h1; omega)
        (by simp at h2; omega) p q) (fun e => ?_)
      refine exBind_isOk (ih (i + 1) (by simp at h1; omega)
        (by simp at h2; omega)) (fun es => exPure_isOk _)

theorem check_first_errors_isOk {cp cf : List Note} (hcp : cp ≠ []) (hcf : cf ≠ [])
    (hlen : 1 < cp.length → 1 < cf.length) :
    ∃ es, check_first_errors cp cf = .ok es := by
  have hcpl : 0 < cp.length := List.length_pos.mpr hcp
  have hcfl : 0 < cf.length := List.length_pos.mpr hcf
  unfold check_first_errors
  refine exBind_isOk (firstGo_isOk (cp.zip cf) 0 (by rw [List.length_zip]; omega)
    (by rw [List.length_zip]; omega)) (fun loopErrs => ?_)
  refine exBind_isOk (pyGet_nonneg_isOk (by omega) (by omega)) (fun b0 => ?_)
  refine exBind_isOk (pyGet_nonneg_isOk (by omega) (by omega)) (fun f0 => ?_)
  refine exBind_isOk (pyGet_last_isOk hcp) (fun bl => ?_)
  refine exBind_isOk (pyGet_last_isOk hcf) (fun fl => ?_)
  by_cases h1 : 1 < cp.length
  · rw [if_pos h1]
    have h2 : 1 < cf.length := hlen h1
    refine exBind_isOk (pyGet_neg_isOk (by omega) (by omega)) (fun p2 => ?_)
    refine exBind_isOk (pyGet_neg_isOk (by omega) (by omega)) (fun f2 => ?_)
    exact exPure_isOk _
  · rw [if_neg h1]
    exact exPure_isOk _

theorem secondBody_isOk {cp cf : List Note} {i : ℕ} (hcp : i < cp.length)
    (hcf : i / 2 < cf.length) : ∃ es, secondBody cp cf i = .ok es := by
  unfold secondBody
  refine exBind_isOk (pyGet_nonneg_isOk (by omega) (by omega)) (fun cp_strong => ?_)
  refine exBind_isOk (pyGet_nonneg_isOk (by omega) (by omega)) (fun cf_note => ?_)
  by_cases h1 : i + 1 < cp.length
  · rw [if_pos h1]
    refine exBind_isOk (pyGet_nonneg_isOk (by omega) (by omega)) (fun cp_weak => ?_)
    by_cases h2 : i + 2 < cp.length
    · rw [if_pos h2]
      refine exBind_isOk (pyGet_nonneg_isOk (by omega) (by omega)) (fun nn => ?_)
      exact exPure_isOk _
    · rw [if_neg h2]
      exact exBind_isOk (exPure_isOk _) (fun next_pitch => exPure_isOk _)
  · rw [if_neg h1]
    exact exPure_isOk _

theorem secondGo_isOk {cp cf : List Note} :
    ∀ l : List ℕ, (∀ i ∈ l, i < cp.length ∧ i / 2 < cf.length) →
      ∃ es, secondGo cp cf l = .ok es := by
  intro l
  induction l with
  | nil => exact fun _ => ⟨[], rfl⟩
  | cons i rest ih =>
    intro hall
    obtain ⟨h1, h2⟩ := hall i (List.mem_cons_self i rest)
    simp only [secondGo]
    refine exBind_isOk (secondBody_isOk h1 h2) (fun e => ?_)
    refine exBind_isOk (ih (fun j hj => hall j (List.mem_cons_of_mem i hj)))
      (fun es => exPure_isOk _)

theorem stepRange_mem {step n i : ℕ} (h : i ∈ stepRange step n) :
    ∃ k, k < (n + step - 1) / step ∧ i = k * step := by
  simp only [stepRange, List.mem_map, List.mem_range] at h
  obtain ⟨k, hk, rfl⟩ := h
  exact ⟨k, hk, rfl⟩

theorem check_second_errors_isOk {cp cf : List Note} (hcp : cp ≠ []) (hcf : cf ≠ [])
    (hlen : cp.length ≤ 2 * cf.length) :
    ∃ es, check_second_errors cp cf = .ok es := by
  have hcpl : 0 < cp.length := List.length_pos.mpr hcp
  have hcfl : 0 < cf.length := List.length_pos.mpr hcf
  unfold check_second_errors
  refine exBind_isOk (secondGo_isOk (stepRange 2 cp.length) ?_) (fun loopErrs => ?_)
  · intro i hi
    obtain ⟨k, hk, rfl⟩ := stepRange_mem hi
    omega
  refine exBind_isOk (pyGet_nonneg_isOk (by omega) (by omega)) (fun b0 => ?_)
  refine exBind_isOk (pyGet_nonneg_isOk (by omega) (by omega)) (fun f0 => ?_)
  refine exBind_isOk (pyGet_last_isOk hcp) (fun bl => ?_)
  refine exBind_isOk (pyGet_last_isOk hcf) (fun fl => exPure_isOk _)

theorem thirdBody_isOk {cp cf : List Note} {i : ℕ} (hcp : i < cp.length)
    (hcf : i / 4 < cf.length) : ∃ es, thirdBody cp cf i = .ok es := by
  unfold thirdBody
  refine exBind_isOk (pyGet_nonneg_isOk (by omega) (by omega)) (fun cf_note => ?_)
  refine exBind_isOk (pyGet_nonneg_isOk (by omega) (by omega)) (fun c0 => ?_)
  refine exBind_isOk (exMapM_isOk_of ?_) (fun inner => exPure_isOk _)
  intro j hj
  have hj123 : j = 1 ∨ j = 2 ∨ j = 3 := by
    simp only [List.mem_cons, List.mem_singleton] at hj
    tauto
  by_cases hin : i + j < cp.length
  · rw [if_pos hin]
    refine exBind_isOk (pyGet_nonneg_isOk (by omega) (by omega)) (fun prev => ?_)
    refine exBind_isOk (pyGet_nonneg_isOk (by omega) (by omega)) (fun cur => ?_)
    by_cases hin2 : i + j + 1 < cp.length
    · rw [if_pos hin2]
      refine exBind_isOk (pyGet_nonneg_isOk (by omega) (by omega)) (fun nn => ?_)
      exact exPure_isOk _
    · rw [if_neg hin2]
      exact exBind_isOk (exPure_isOk _) (fun next_pitch => exPure_isOk _)
  · rw [if_neg hin]
    exact exPure_isOk _

theorem thirdGo_isOk {cp cf : List Note} :
    ∀ l : List ℕ, (∀ i ∈ l, i < cp.length ∧ i / 4 < cf.length) →
      ∃ es, thirdGo cp cf l = .ok es := by
  intro l
  induction l with
  | nil => exact fun _ => ⟨[], rfl⟩
  | cons i rest ih =>
    intro hall
    obtain ⟨h1, h2⟩ := hall i (List.mem_cons_self i rest)
    simp only [thirdGo]
    refine exBind_isOk (thirdBody_isOk h1 h2) (fun e => ?_)
    refine exBind_isOk (ih (fun j hj => hall j (List.mem_cons_of_mem i hj)))
      (fun es => exPure_isOk _)

theorem check_third_errors_isOk {cp cf : List Note} (hcp : cp ≠ []) (hcf : cf ≠ [])
    (hlen : cp.length ≤ 4 * cf.length) :
    ∃ es, check_third_errors cp cf = .ok es := by
  have hcpl : 0 < cp.length := List.length_pos.mpr hcp
  have hcfl : 0 < cf.length := List.length_pos.mpr hcf
  unfold check_third_errors
  refine exBind_isOk (thirdGo_isOk (stepRange 4 cp.length) ?_) (fun loopErrs => ?_)
  · intro i hi
    obtain ⟨k, hk, rfl⟩ := stepRange_mem hi
    omega
  refine exBind_isOk (pyGet_nonneg_isOk (by omega) (by omega)) (fun b0 => ?_)
  refine exBind_isOk (pyGet_nonneg_isOk (by omega) (by omega)) (fun f0 => ?_)
  refine exBind_isOk (pyGet_last_isOk hcp) (fun bl => ?_)
  refine exBind_isOk (pyGet_last_isOk hcf) (fun fl => exPure_isOk _)

theorem fourthBody_isOk {cp cf : List Note} {i : ℕ} (hcp : i < cp.length)
    (hcf : i / 2 < cf.length) : ∃ es, fourthBody cp cf i = .ok es := by
  unfold fourthBody
  refine exBind_isOk (pyGet_nonneg_isOk (by omega) (by omega)) (fun cf_note => ?_)
  by_cases h0 : 0 < i
  · rw [if_pos h0]
    refine exBind_isOk (pyGet_nonneg_isOk (by omega) (by omega)) (fun prev_cp => ?_)
    refine exBind_isOk (pyGet_nonneg_isOk (by omega) (by omega)) (fun curr_cp => ?_)
    by_cases h1 : i + 1 < cp.length
    · rw [if_pos h1]
      refine exBind_isOk (pyGet_nonneg_isOk (by omega) (by omega)) (fun x => ?_)
      refine exBind_isOk (exPure_isOk _) (fun next_cp => ?_)
      refine exBind_isOk (pyGet_nonneg_isOk (by omega) (by omega)) (fun prev_cf => ?_)
      exact exPure_isOk _
    · rw [if_neg h1]
      refine exBind_isOk (exPure_isOk _) (fun next_cp => ?_)
      refine exBind_isOk (pyGet_nonneg_isOk (by omega) (by omega)) (fun prev_cf => ?_)
      exact exPure_isOk _
  · rw [if_neg h0]
    exact exPure_isOk _

theorem fourthGo_isOk {cp cf : List Note} :
    ∀ l : List ℕ, (∀ i ∈ l, i < cp.length ∧ i / 2 < cf.length) →
      ∃ es, fourthGo cp cf l = .ok es := by
  intro l
  induction l with
  | nil => exact fun _ => ⟨[], rfl⟩
  | cons i rest ih =>
    intro hall
    obtain ⟨h1, h2⟩ := hall i (List.mem_cons_self i rest)
    simp only [fourthGo]
    refine exBind_isOk (fourthBody_isOk h1 h2) (fun e => ?_)
    refine exBind_isOk (ih (fun j hj => hall j (List.mem_cons_of_mem i hj)))
      (fun es => exPure_isOk _)

theorem check_fourth_errors_isOk {cp cf : List Note} (hcp : cp ≠ []) (hcf : cf ≠ [])
    (hlen : cp.length ≤ 2 * cf.length) :
    ∃ es, check_fourth_errors cp cf = .ok es := by
  have hcpl : 0 < cp.length := List.length_pos.mpr hcp
  have hcfl : 0 < cf.length := List.length_pos.mpr hcf
  unfold check_fourth_errors
  refine exBind_isOk (fourthGo_isOk (stepRange 2 cp.length) ?_) (fun loopErrs => ?_)
  · intro i hi
    obtain ⟨k, hk, rfl⟩ := stepRange_mem hi
    omega
  refine exBind_isOk (pyGet_nonneg_isOk (by omega) (by omega)) (fun b0 => ?_)
  refine exBind_isOk (pyGet_nonneg_isOk (by omega) (by omega)) (fun f0 => ?_)
  refine exBind_isOk (pyGet_last_isOk hcp) (fun bl => ?_)
  refine exBind_isOk (pyGet_last_isOk hcf) (fun fl => exPure_isOk _)

theorem advanceMeasure_le (cf : List Note) (pos : ℚ) :
    ∀ (fuel m : ℕ), m ≤ cf.length → advanceMeasure cf pos fuel m ≤ cf.length := by
  intro fuel
  induction fuel with
  | zero => exact fun m h => h
  | succ fuel ih =>
    intro m h
    simp only [advanceMeasure]
    cases hg : cf.get? m with
    | none => exact h
    | some n =>
      have hm : m < cf.length := by
        rcases List.get?_eq_some.mp hg with ⟨hlt, -⟩
        exact hlt
      dsimp only
      by_cases hle : n.position ≤ pos
      · rw [if_pos hle]
        exact ih (m + 1) (by omega)
      · rw [if_neg hle]
        exact h

theorem fifthBeatErrs_isOk {cp : List Note} {i : ℕ} (hi : i < cp.length)
    (cp_note cf_note : Note) : ∃ es, fifthBeatErrs cp i cp_note cf_note = .ok es := by
  unfold fifthBeatErrs
  by_cases hsb : is_strong_beat cp_note.position = true
  · rw [if_pos hsb]
    exact exPure_isOk _
  · rw [if_neg hsb]
    by_cases hcons : is_consonant
        (calculate_interval cp_note.pitch cf_note.pitch) = false
    · rw [if_pos hcons]
      by_cases hmid : 0 < i ∧ i < cp.length - 1
      · rw [if_pos hmid]
        refine exBind_isOk (pyGet_nonneg_isOk (by omega) (by omega)) (fun prev => ?_)
        refine exBind_isOk (pyGet_nonneg_isOk (by omega) (by omega)) (fun next => ?_)
        exact exPure_isOk _
      · rw [if_neg hmid]
        exact exPure_isOk _
    · rw [if_neg hcons]
      exact exPure_isOk _

theorem fifthSuspensionErrs_isOk {cp : List Note} {i : ℕ} (hi : i < cp.length)
    (cp_note cf_note : Note) :
    ∃ es, fifthSuspensionErrs cp i cp_note cf_note = .ok es := by
  unfold fifthSuspensionErrs
  by_cases h0 : 0 < i
  · rw [if_pos h0]
    refine exBind_isOk (pyGet_nonneg_isOk (by omega) (by omega)) (fun prev => ?_)
    by_cases hhalf : cp_note.position - prev.position = (1 : ℚ) / 2
    · rw [if_pos hhalf]
      by_cases hsusp : is_valid_suspension
            (calculate_interval prev.pitch cf_note.pitch) = true ∧
          is_valid_suspension_resolution
            (calculate_interval cp_note.pitch cf_note.pitch) = true ∧
          is_downward_resolution prev.pitch cp_note.pitch = true
      · rw [if_pos hsusp]
        exact exPure_isOk _
      · rw [if_neg hsusp]
        by_cases hcons : is_consonant
            (calculate_interval cp_note.pitch cf_note.pitch) = false
        · rw [if_pos hcons]
          exact exPure_isOk _
        · rw [if_neg hcons]
          exact exPure_isOk _
    · rw [if_neg hhalf]
      exact exPure_isOk _
  · rw [if_neg h0]
    exact exPure_isOk _

theorem fifthGo_isOk {cp cf : List Note} (hcf : cf ≠ []) :
    ∀ (l : List Note) (i cm : ℕ), i + l.length = cp.length → cm ≤ cf.length →
      ∃ es, fifthGo cp cf cm i l = .ok es := by
  have hcfl : 0 < cf.length := List.length_pos.mpr hcf
  intro l
  induction l with
  | nil => exact fun i cm _ _ => ⟨[], rfl⟩
  | cons cp_note rest ih =>
    intro i cm hinv hcm
    have hi : i < cp.length := by
      simp only [List.length_cons] at hinv
      omega
    simp only [fifthGo]
    have hcm2 : advanceMeasure cf cp_note.position cf.length cm ≤ cf.length :=
      advanceMeasure_le cf cp_note.position cf.length cm hcm
    have hcf_note : ∃ a,
        pyGet cf ((advanceMeasure cf cp_note.position cf.length cm : ℤ) - 1) = .ok a := by
      rcases Nat.eq_zero_or_pos (advanceMeasure cf cp_note.position cf.length cm) with
        hz | hp
      · rw [hz]
        exact pyGet_neg_isOk (by omega) (by omega)
      · exact pyGet_nonneg_isOk (by omega) (by omega)
    refine exBind_isOk hcf_note (fun cf_note => ?_)
    refine exBind_isOk (fifthBeatErrs_isOk hi cp_note cf_note) (fun e1 => ?_)
    refine exBind_isOk (fifthSuspensionErrs_isOk hi cp_note cf_note) (fun e2 => ?_)
    refine exBind_isOk (ih (i + 1) _ (by simp only [List.length_cons] at hinv; omega)
      hcm2) (fun es => exPure_isOk _)

theorem check_fifth_errors_isOk {cp cf : List Note} (hcp : cp ≠ []) (hcf : cf ≠ []) :
    ∃ es, check_fifth_errors cp cf = .ok es := by
  have hcpl : 0 < cp.length := List.length_pos.mpr hcp
  have hcfl : 0 < cf.length := List.length_pos.mpr hcf
  unfold check_fifth_errors
  refine exBind_isOk (fifthGo_isOk hcf cp 0 0 (by omega) (by omega))
    (fun loopErrs => ?_)
  refine exBind_isOk (pyGet_nonneg_isOk (by omega) (by omega)) (fun b0 => ?_)
  refine exBind_isOk (pyGet_nonneg_isOk (by omega) (by omega)) (fun f0 => ?_)
  refine exBind_isOk (pyGet_last_isOk hcp) (fun bl => ?_)
  refine exBind_isOk (pyGet_last_isOk hcf) (fun fl => exPure_isOk _)

theorem check_first_isOk {cp cf : List Note} (hcp : cp ≠ []) (hcf : cf ≠ [])
    (hlen : 1 < cp.length → 1 < cf.length) :
    ∃ E, check_first_species_rules cp cf = .ok (E.isEmpty, E) :=
  finalizeRules_isOk (check_first_errors_isOk hcp hcf hlen)

theorem check_second_isOk {cp cf : List Note} (hcp : cp ≠ []) (hcf : cf ≠ [])
    (hlen : cp.length ≤ 2 * cf.length) :
    ∃ E, check_second_species_rules cp cf = .ok (E.isEmpty, E) :=
  finalizeRules_isOk (check_second_errors_isOk hcp hcf hlen)

theorem check_third_isOk {cp cf : List Note} (hcp : cp ≠ []) (hcf : cf ≠ [])
    (hlen : cp.length ≤ 4 * cf.length) :
    ∃ E, check_third_species_rules cp cf = .ok (E.isEmpty, E) :=
  finalizeRules_isOk (check_third_errors_isOk hcp hcf hlen)

theorem check_fourth_isOk {cp cf : List Note} (hcp : cp ≠ []) (hcf : cf ≠ [])
    (hlen : cp.length ≤ 2 * cf.length) :
    ∃ E, check_fourth_species_rules cp cf = .ok (E.isEmpty, E) :=
  finalizeRules_isOk (check_fourth_errors_isOk hcp hcf hlen)

theorem check_fifth_isOk {cp cf : List Note} (hcp : cp ≠ []) (hcf : cf ≠ []) :
    ∃ E, check_fifth_species_rules cp cf = .ok (E.isEmpty, E) :=
  finalizeRules_isOk (check_fifth_errors_isOk hcp hcf)

theorem species_check_ok_shape {s : Species} {cp cf : List Note}
    {r : Bool × List String} (h : species_check s cp cf = .ok r) :
    r = (r.2.isEmpty, r.2) := by
  cases s <;> {
    obtain ⟨E, hE, rfl⟩ := finalizeRules_ok h
    rfl
  }

theorem species_check_singleton_isOk (s : Species) (x cfn : Note) :
    ∃ E, species_check s [x] [cfn] = .ok (E.isEmpty, E) := by
  have hcp : ([x] : List Note) ≠ [] := by simp
  have hcf : ([cfn] : List Note) ≠ [] := by simp
  cases s with
  | FIRST => exact check_first_isOk hcp hcf (by simp)
  | SECOND => exact check_second_isOk hcp hcf (by simp)
  | THIRD => exact check_third_isOk hcp hcf (by simp)
  | FOURTH => exact check_fourth_isOk hcp hcf (by simp)
  | FIFTH => exact check_fifth_isOk hcp hcf

theorem evaluate_fitness_isOk {cp : List Note} {cfv : Voice} {s : Species}
    {m : Mode} (h : ∃ r, species_check s cp cfv.notes = .ok r) :
    ∃ q, evaluate_fitness cp cfv s m = .ok q := by
  obtain ⟨r, hr⟩ := h
  unfold evaluate_fitness
  refine exBind_isOk ⟨r, hr⟩ (fun a => ?_)
  cases a with
  | mk valid errors =>
    dsimp only
    by_cases hv : valid = false
    · rw [if_pos hv]
      exact exPure_isOk _
    · rw [if_neg hv]
      exact exPure_isOk _

theorem evaluate_fitness_ok_cases {cp : List Note} {cfv : Voice} {s : Species}
    {m : Mode} {q : ℚ} (h : evaluate_fitness cp cfv s m = .ok q) :
    ∃ E, species_check s cp cfv.notes = .ok (E.isEmpty, E) ∧
      ((E = [] ∧ q = 1) ∨ (E ≠ [] ∧ q = 0)) := by
  unfold evaluate_fitness at h
  rw [exBind_ok] at h
  obtain ⟨r, hr, h⟩ := h
  have hshape := species_check_ok_shape hr
  refine ⟨r.2, by rw [← hshape]; exact hr, ?_⟩
  rw [hshape] at h
  cases hE : r.2 with
  | nil =>
    left
    refine ⟨rfl, ?_⟩
    rw [hE] at h
    simp only [List.isEmpty_nil] at h
    norm_num at h
    simp only [evaluate_melodic_aspects, evaluate_harmonic_aspects,
      evaluate_mode_adherence, evaluate_musicality] at h
    rw [if_neg (by norm_num)] at h
    rw [exPure_eq] at h
    exact (Except.ok.inj h).symm
  | cons e es =>
    right
    refine ⟨by simp, ?_⟩
    rw [hE] at h
    simp only [List.isEmpty_cons] at h
    norm_num at h
    rw [exPure_eq] at h
    exact (Except.ok.inj h).symm

theorem ok_bind {α β : Type} (a : α) (f : α → Except String β) :
    (Except.ok a >>= f : Except String β) = f a := rfl

theorem getD_of_get? {l : List ℚ} {k : ℕ} {y : ℚ} (h : l.get? k = some y) :
    l.getD k 0 = y := by
  rcases List.get?_eq_some.mp h with ⟨hk, hy⟩
  rw [List.getD_eq_get l 0 hk]
  exact hy

theorem optimize_counterpoint_length {cp : List Note} {cfv : Voice} {s : Species}
    {m : Mode} {res : List Note} (h : optimize_counterpoint cp cfv s m = .ok res) :
    res.length = cfv.notes.length := by
  unfold optimize_counterpoint at h
  rw [exBind_ok] at h
  obtain ⟨c0, hc0, h⟩ := h
  rw [exBind_ok] at h
  obtain ⟨cf0, hcf0, h⟩ := h
  rw [exBind_ok] at h
  obtain ⟨row0, hrow0, h⟩ := h
  rw [exBind_ok] at h
  obtain ⟨rest, hrest, h⟩ := h
  rw [exBind_ok] at h
  obtain ⟨lastRow, hlastRow, h⟩ := h
  rw [exBind_ok] at h
  obtain ⟨cur, hcur, h⟩ := h
  rw [exBind_ok] at h
  obtain ⟨lastCp, hlastCp, h⟩ := h
  rw [exBind_ok] at h
  obtain ⟨tail, htail, h⟩ := h
  rw [exPure_eq] at h
  have hres := Except.ok.inj h
  have hn : cfv.notes ≠ [] := pyGet_ok_ne_nil hcf0
  have hnpos : 0 < cfv.notes.length := List.length_pos.mpr hn
  have htl : tail.length = cfv.notes.length - 1 := by
    have := exMapM_ok_length htail
    simpa using this
  rw [← hres]
  simp only [List.length_reverse, List.length_cons]
  omega

theorem optimize_singleton_spec (note cfn : Note) (s : Species) (m : Mode) :
    ∃ (cur : ℕ) (row0 : List ℚ),
      optimize_counterpoint [note] ⟨[cfn]⟩ s m =
        .ok [⟨(cur : ℤ), note.duration, note.position⟩] ∧
      cur < 128 ∧
      exMapM (fun p : ℕ =>
        evaluate_fitness [⟨(p : ℤ), note.duration, note.position⟩] ⟨[cfn]⟩ s m)
        (List.range 128) = .ok row0 ∧
      (∀ y ∈ List.range 128, row0.getD y 0 ≤ row0.getD cur 0) := by
  have hex : ∃ out, optimize_counterpoint [note] ⟨[cfn]⟩ s m = .ok out := by
    unfold optimize_counterpoint
    refine exBind_isOk ⟨note, rfl⟩ (fun c0 => ?_)
    refine exBind_isOk ⟨cfn, rfl⟩ (fun cf0 => ?_)
    refine exBind_isOk (exMapM_isOk_of ?_) (fun row0 => ?_)
    · intro p _
      exact evaluate_fitness_isOk (by
        obtain ⟨E, hE⟩ := species_check_singleton_isOk s _ cf0
        exact ⟨_, hE⟩)
    refine exBind_isOk ⟨[], rfl⟩ (fun rest => ?_)
    refine exBind_isOk (pyGet_nonneg_isOk (by norm_num) (by
      simp only [List.length_cons]
      norm_num)) (fun lastRow => ?_)
    refine exBind_isOk (pyMaxBy_isOk _ (by simp [List.range_eq_nil])) (fun cur => ?_)
    refine exBind_isOk ⟨note, rfl⟩ (fun lastCp => ?_)
    refine exBind_isOk ⟨[], rfl⟩ (fun tail => ?_)
    exact exPure_isOk _
  obtain ⟨out, hout⟩ := hex
  have hopt := hout
  unfold optimize_counterpoint at hout
  rw [exBind_ok] at hout
  obtain ⟨c0, hc0, hout⟩ := hout
  rw [show pyGet [note] (0 : ℤ) = .ok note from rfl] at hc0
  cases Except.ok.inj hc0
  rw [exBind_ok] at hout
  obtain ⟨cf0, hcf0, hout⟩ := hout
  rw [show pyGet [cfn] (0 : ℤ) = .ok cfn from rfl] at hcf0
  cases Except.ok.inj hcf0
  rw [exBind_ok] at hout
  obtain ⟨row0, hrow0, hout⟩ := hout
  rw [exBind_ok] at hout
  obtain ⟨rest, hrest, hout⟩ := hout
  rw [show dpRows [note] [cfn] s m 1 (([cfn] : List Note).length - 1) row0 =
    .ok [] from rfl] at hrest
  cases Except.ok.inj hrest
  rw [exBind_ok] at hout
  obtain ⟨lastRow, hlastRow, hout⟩ := hout
  rw [show pyGet [row0] ((([cfn] : List Note).length : ℤ) - 1) = .ok row0
    from rfl] at hlastRow
  cases Except.ok.inj hlastRow
  rw [exBind_ok] at hout
  obtain ⟨cur, hcur, hout⟩ := hout
  rw [exBind_ok] at hout
  obtain ⟨lastCp, hlastCp, hout⟩ := hout
  rw [show pyGet [note] (-1 : ℤ) = .ok note from rfl] at hlastCp
  cases Except.ok.inj hlastCp
  rw [exBind_ok] at hout
  obtain ⟨tail, htail, hout⟩ := hout
  rw [show exMapM (fun i : ℕ => do
      let row ← pyGet [row0] (i : ℤ)
      let best_pitch ← pyMaxBy (fun p => row.getD p 0) (List.range 128)
      let ci ← pyGet [note] (i : ℤ)
      pure (⟨(best_pitch : ℤ), ci.duration, ci.position⟩ : Note))
    ((List.range (([cfn] : List Note).length - 1)).reverse) = .ok [] from rfl] at htail
  cases Except.ok.inj htail
  rw [exPure_eq] at hout
  have hres := Except.ok.inj hout
  obtain ⟨hmem, hall⟩ := pyMaxBy_spec hcur
  refine ⟨cur, row0, ?_, List.mem_range.mp hmem, hrow0, ?_⟩
  · rw [hopt, ← hres]
    rfl
  · intro y hy
    exact hall y hy

theorem generate_counterpoint_ok_length {cf : List Note} {s : Species} {m : Mode}
    {ps mg : ℕ} {rng : ℕ → ℕ} {c0 c1 : ℕ} {out : List Note}
    (h : (generate_counterpoint cf s m ps mg rng).run c0 = .ok (out, c1)) :
    out.length = cf.length := by
  unfold generate_counterpoint at h
  rw [pyrBind_ok] at h
  obtain ⟨g, ca, hg, h⟩ := h
  rw [pyrBind_ok] at h
  obtain ⟨pop, cb, hpop, h⟩ := h
  rw [pyrBind_ok] at h
  obtain ⟨pop2, cc, hpop2, h⟩ := h
  rw [pyrBind_ok] at h
  obtain ⟨best, cd, hbest, h⟩ := h
  rw [liftE_ok] at h
  obtain ⟨hopt, -⟩ := h
  exact optimize_counterpoint_length hopt

theorem is_in_mode_shift (t d : ℤ) (m : Mode) :
    is_in_mode (t + d) t m = is_in_mode d 0 m := by
  unfold is_in_mode
  rw [show t + d - t = d by ring, show d - 0 = d by ring]

theorem filterMapComm {α β : Type} (f : α → β) (p : β → Bool) :
    ∀ l : List α, (l.map f).filter p = (l.filter (fun a => p (f a))).map f := by
  intro l
  induction l with
  | nil => rfl
  | cons x xs ih =>
    simp only [List.map_cons, List.filter_cons]
    by_cases hx : p (f x)
    · rw [if_pos hx, if_pos hx, List.map_cons, ih]
    · rw [if_neg hx, if_neg hx, ih]

theorem generate_possible_notes_length (cfn : Note) (s : Species) (m : Mode) :
    (generate_possible_notes cfn s m).length = 15 := by
  unfold generate_possible_notes intRange
  simp only [List.length_map]
  rw [show cfn.pitch + 13 - (cfn.pitch - 12) = 25 by ring]
  rw [filterMapComm, List.length_map]
  rw [List.filter_congr (fun k _ => show
      is_in_mode (cfn.pitch - 12 + (k : ℤ)) cfn.pitch m =
        is_in_mode ((k : ℤ) - 12) 0 m by
    rw [show cfn.pitch - 12 + (k : ℤ) = cfn.pitch + ((k : ℤ) - 12) by ring,
      is_in_mode_shift])]
  cases m <;> decide

theorem generate_possible_notes_position (cfn : Note) (s : Species) (m : Mode) :
    ∀ x ∈ generate_possible_notes cfn s m, x.position = cfn.position := by
  intro x hx
  unfold generate_possible_notes at hx
  simp only [List.mem_map] at hx
  obtain ⟨p, -, rfl⟩ := hx
  rfl

theorem generate_possible_notes_pitch_mem (cfn : Note) (s : Species) (m : Mode) :
    cfn.pitch ∈ (generate_possible_notes cfn s m).map Note.pitch := by
  unfold generate_possible_notes
  simp only [List.map_map, List.mem_map, Function.comp]
  refine ⟨cfn.pitch, ?_, rfl⟩
  rw [List.mem_filter]
  constructor
  · unfold intRange
    simp only [List.mem_map, List.mem_range]
    refine ⟨12, ?_, by ring⟩
    rw [show cfn.pitch + 13 - (cfn.pitch - 12) = 25 by ring]
    decide
  · show is_in_mode cfn.pitch cfn.pitch m = true
    unfold is_in_mode
    rw [show cfn.pitch - cfn.pitch = (0 : ℤ) by ring]
    cases m <;> decide

theorem add_node_nodes (g : CounterpointGraph) (x : Note × Note) :
    (g.add_node x).nodes = g.nodes ++ [x] := rfl

theorem add_edge_nodes (g : CounterpointGraph) (a b : Note × Note) (w : ℚ) :
    (g.add_edge a b w).nodes = g.nodes := rfl

theorem addEdges_inner_nodes (species : Species) (mode : Mode)
    (prev_node : Note × Note) :
    ∀ (currs : List (Note × Note)) (g : CounterpointGraph),
      (currs.foldl (fun gr2 current_node =>
        if is_valid_transition prev_node current_node species mode then
          gr2.add_edge prev_node current_node
            (calculate_transition_weight prev_node current_node species mode)
        else gr2) g).nodes = g.nodes := by
  intro currs
  induction currs with
  | nil => exact fun g => rfl
  | cons c cs ih =>
    intro g
    simp only [List.foldl_cons]
    by_cases hc : is_valid_transition prev_node c species mode
    · rw [if_pos hc, ih, add_edge_nodes]
    · rw [if_neg hc, ih]

theorem addEdges_nodes (g : CounterpointGraph) (prevs currs : List (Note × Note))
    (species : Species) (mode : Mode) :
    (addEdges g prevs currs species mode).nodes = g.nodes := by
  unfold addEdges
  induction prevs generalizing g with
  | nil => rfl
  | cons p ps ih =>
    simp only [List.foldl_cons]
    rw [ih, addEdges_inner_nodes]

theorem foldl_add_node_nodes (cfn : Note) :
    ∀ (l : List Note) (g : CounterpointGraph),
      (l.foldl (fun gr cp_note => gr.add_node (cfn, cp_note)) g).nodes =
        g.nodes ++ l.map (fun cp => (cfn, cp)) := by
  intro l
  induction l with
  | nil => exact fun g => by simp
  | cons x xs ih =>
    intro g
    simp only [List.foldl_cons, List.map_cons]
    rw [ih, add_node_nodes, List.append_assoc]
    rfl

theorem initGo_nodes_mono {cf : List Note} {s : Species} {m : Mode} :
    ∀ (l : List Note) (i : ℕ) (g g' : CounterpointGraph),
      initGo cf s m i l g = .ok g' → ∀ x ∈ g.nodes, x ∈ g'.nodes := by
  intro l
  induction l with
  | nil =>
    intro i g g' h x hx
    cases Except.ok.inj h
    exact hx
  | cons cfn rest ih =>
    intro i g g' h x hx
    simp only [initGo] at h
    have hx1 : x ∈ (((generate_possible_notes cfn s m).foldl
        (fun gr cp_note => gr.add_node (cfn, cp_note)) g)).nodes := by
      rw [foldl_add_node_nodes]
      exact List.mem_append_left _ hx
    by_cases hi : 0 < i
    · rw [if_pos hi] at h
      rw [exBind_ok] at h
      obtain ⟨prev_cf, -, h⟩ := h
      rw [exBind_ok] at h
      obtain ⟨g2, hg2, hrec⟩ := h
      rw [exPure_eq] at hg2
      cases Except.ok.inj hg2
      refine ih (i + 1) _ g' hrec x ?_
      rw [addEdges_nodes]
      exact hx1
    · rw [if_neg hi] at h
      rw [exBind_ok] at h
      obtain ⟨g2, hg2, hrec⟩ := h
      rw [exPure_eq] at hg2
      cases Except.ok.inj hg2
      exact ih (i + 1) _ g' hrec x hx1

theorem initGo_nodes_cover {cf : List Note} {s : Species} {m : Mode} :
    ∀ (l : List Note) (i : ℕ) (g g' : CounterpointGraph),
      initGo cf s m i l g = .ok g' →
      ∀ x ∈ l, ∃ nd ∈ g'.nodes, nd.1 = x := by
  intro l
  induction l with
  | nil =>
    intro i g g' _ x hx
    cases hx
  | cons cfn rest ih =>
    intro i g g' h x hx
    simp only [initGo] at h
    have hstep : ∃ g2, initGo cf s m (i + 1) rest g2 = .ok g' ∧
        g2.nodes = (((generate_possible_notes cfn s m).foldl
          (fun gr cp_note => gr.add_node (cfn, cp_note)) g)).nodes := by
      by_cases hi : 0 < i
      · rw [if_pos hi] at h
        rw [exBind_ok] at h
        obtain ⟨prev_cf, -, h⟩ := h
        rw [exBind_ok] at h
        obtain ⟨g2, hg2, hrec⟩ := h
        rw [exPure_eq] at hg2
        cases Except.ok.inj hg2
        exact ⟨_, hrec, addEdges_nodes _ _ _ _ _⟩
      · rw [if_neg hi] at h
        rw [exBind_ok] at h
        obtain ⟨g2, hg2, hrec⟩ := h
        rw [exPure_eq] at hg2
        cases Except.ok.inj hg2
        exact ⟨_, hrec, rfl⟩
    obtain ⟨g2, hrec, hnodes⟩ := hstep
    rcases List.mem_cons.mp hx with rfl | hx
    · have hne : generate_possible_notes x s m ≠ [] := by
        intro hnil
        have := generate_possible_notes_length x s m
        rw [hnil] at this
        cases this
      obtain ⟨cp, hcp⟩ := List.exists_mem_of_ne_nil _ hne
      have hx2 : (x, cp) ∈ g2.nodes := by
        rw [hnodes, foldl_add_node_nodes]
        exact List.mem_append_right _ (List.mem_map.mpr ⟨cp, hcp, rfl⟩)
      exact ⟨(x, cp), initGo_nodes_mono rest (i + 1) g2 g' hrec (x, cp) hx2, rfl⟩
    · exact ih (i + 1) g2 g' hrec x hx

theorem initialize_graph_nodes_at {cf : List Note} {s : Species} {m : Mode}
    {g : CounterpointGraph}
    (h : initialize_counterpoint_graph ⟨cf⟩ s m = .ok g) :
    ∀ x ∈ cf, g.get_nodes_at_position x.position ≠ [] := by
  intro x hx
  obtain ⟨nd, hnd, hfst⟩ := initGo_nodes_cover cf 0 ⟨[], []⟩ g h x hx
  have hmem : nd ∈ g.get_nodes_at_position x.position := by
    unfold CounterpointGraph.get_nodes_at_position
    rw [List.mem_filter]
    exact ⟨hnd, by rw [hfst]; simp⟩
  exact List.ne_nil_of_mem hmem

theorem iteSingletonEqNil {p : Prop} [Decidable p] {msg : String} :
    ((if p then [msg] else []) = ([] : List String)) ↔ ¬ p := by
  split_ifs with h
  · simp [h]
  · simp [h]

/-! ## Claims -/

/-- A concrete random oracle (every raw draw is 0) used by the concrete runs. -/
def rngZero : ℕ → ℕ := fun _ => 0

/-- C1 (amended): for every cantus firmus, species, mode, population size,
generation bound and random oracle, whenever `generate_counterpoint` returns
normally its result has exactly one note per cantus-firmus note — the DP
refinement pass rebuilds one note per cantus-firmus position, so the length
equals the cantus-firmus length for every species, not the species ratio
claimed by the spec. -/
theorem c1_generate_length (cf : List Note) (s : Species) (m : Mode)
    (population_size max_generations : ℕ) (rng : ℕ → ℕ) (c0 c1 : ℕ)
    (out : List Note)
    (h : (generate_counterpoint cf s m population_size max_generations rng).run c0 =
      .ok (out, c1)) :
    out.length = cf.length :=
  generate_counterpoint_ok_length h

/-- C1 witness: a first-species run on a one-note cantus firmus returns
normally (the population reaches fitness 1.0 in the first generation) and the
theorem yields its length. -/
theorem c1_generate_length_witness :
    ([(⟨0, 1, 0⟩ : Note)] : List Note).length = ([(⟨60, 1, 0⟩ : Note)] : List Note).length :=
  c1_generate_length [⟨60, 1, 0⟩] .FIRST .IONIAN 5 1 rngZero 0 5 [⟨0, 1, 0⟩]
    (by with_unfolding_all decide)

/-- C1 counterexample: a complete second-species run on a two-note cantus
firmus (population 5, one generation, the all-zero oracle) returns a
counterpoint of length 2, not the claimed ratio 2 x 2 = 4. -/
theorem c1_counterexample :
    ((generate_counterpoint [⟨60, 1, 0⟩, ⟨62, 1, 1⟩] .SECOND .IONIAN 5 1 rngZero).run 0).map
      (fun r => r.1.length) = .ok 2 ∧
    (2 : ℕ) ≠ 2 * ([(⟨60, 1, 0⟩ : Note), ⟨62, 1, 1⟩] : List Note).length :=
  ⟨by with_unfolding_all decide, by decide⟩

/-- C2 (amended): each of the five species validators returns normally — with
`isValid = true` exactly when the violation list is empty — provided both
voices are non-empty and the counterpoint does not exceed the species'
indexable range (first species: a cantus firmus of at least two notes whenever
the counterpoint has two; second and fourth species: counterpoint at most twice
the cantus-firmus length; third species: at most four times).  On empty or
longer inputs the source raises IndexError (see the counterexample), so the
spec's "never throws, for every pair of voices" is false as stated. -/
theorem c2_validators_return (cp cf : List Note) (hcp : cp ≠ []) (hcf : cf ≠ []) :
    ((1 < cp.length → 1 < cf.length) →
      ∃ v es, check_first_species_rules cp cf = .ok (v, es) ∧ (v = true ↔ es = [])) ∧
    (cp.length ≤ 2 * cf.length →
      ∃ v es, check_second_species_rules cp cf = .ok (v, es) ∧ (v = true ↔ es = [])) ∧
    (cp.length ≤ 4 * cf.length →
      ∃ v es, check_third_species_rules cp cf = .ok (v, es) ∧ (v = true ↔ es = [])) ∧
    (cp.length ≤ 2 * cf.length →
      ∃ v es, check_fourth_species_rules cp cf = .ok (v, es) ∧ (v = true ↔ es = [])) ∧
    (∃ v es, check_fifth_species_rules cp cf = .ok (v, es) ∧ (v = true ↔ es = [])) := by
  refine ⟨fun h1 => ?_, fun h2 => ?_, fun h3 => ?_, fun h4 => ?_, ?_⟩
  · obtain ⟨E, hE⟩ := check_first_isOk hcp hcf h1
    exact ⟨E.isEmpty, E, hE, List.isEmpty_iff_eq_nil⟩
  · obtain ⟨E, hE⟩ := check_second_isOk hcp hcf h2
    exact ⟨E.isEmpty, E, hE, List.isEmpty_iff_eq_nil⟩
  · obtain ⟨E, hE⟩ := check_third_isOk hcp hcf h3
    exact ⟨E.isEmpty, E, hE, List.isEmpty_iff_eq_nil⟩
  · obtain ⟨E, hE⟩ := check_fourth_isOk hcp hcf h4
    exact ⟨E.isEmpty, E, hE, List.isEmpty_iff_eq_nil⟩
  · obtain ⟨E, hE⟩ := check_fifth_isOk hcp hcf
    exact ⟨E.isEmpty, E, hE, List.isEmpty_iff_eq_nil⟩

/-- C2 witness: the five validators on a concrete pair of two-note voices. -/
theorem c2_validators_return_witness :
    ((1 < ([(⟨67, 1, 0⟩ : Note), ⟨69, 1, 1⟩] : List Note).length →
      1 < ([(⟨60, 1, 0⟩ : Note), ⟨62, 1, 1⟩] : List Note).length) →
      ∃ v es, check_first_species_rules [⟨67, 1, 0⟩, ⟨69, 1, 1⟩] [⟨60, 1, 0⟩, ⟨62, 1, 1⟩] =
        .ok (v, es) ∧ (v = true ↔ es = [])) ∧
    (([(⟨67, 1, 0⟩ : Note), ⟨69, 1, 1⟩] : List Note).length ≤
        2 * ([(⟨60, 1, 0⟩ : Note), ⟨62, 1, 1⟩] : List Note).length →
      ∃ v es, check_second_species_rules [⟨67, 1, 0⟩, ⟨69, 1, 1⟩] [⟨60, 1, 0⟩, ⟨62, 1, 1⟩] =
        .ok (v, es) ∧ (v = true ↔ es = [])) ∧
    (([(⟨67, 1, 0⟩ : Note), ⟨69, 1, 1⟩] : List Note).length ≤
        4 * ([(⟨60, 1, 0⟩ : Note), ⟨62, 1, 1⟩] : List Note).length →
      ∃ v es, check_third_species_rules [⟨67, 1, 0⟩, ⟨69, 1, 1⟩] [⟨60, 1, 0⟩, ⟨62, 1, 1⟩] =
        .ok (v, es) ∧ (v = true ↔ es = [])) ∧
    (([(⟨67, 1, 0⟩ : Note), ⟨69, 1, 1⟩] : List Note).length ≤
        2 * ([(⟨60, 1, 0⟩ : Note), ⟨62, 1, 1⟩] : List Note).length →
      ∃ v es, check_fourth_species_rules [⟨67, 1, 0⟩, ⟨69, 1, 1⟩] [⟨60, 1, 0⟩, ⟨62, 1, 1⟩] =
        .ok (v, es) ∧ (v = true ↔ es = [])) ∧
    (∃ v es, check_fifth_species_rules [⟨67, 1, 0⟩, ⟨69, 1, 1⟩] [⟨60, 1, 0⟩, ⟨62, 1, 1⟩] =
      .ok (v, es) ∧ (v = true ↔ es = [])) :=
  c2_validators_return [⟨67, 1, 0⟩, ⟨69, 1, 1⟩] [⟨60, 1, 0⟩, ⟨62, 1, 1⟩]
    (by decide) (by decide)

/-- C2 counterexample: the first-species validator on the empty pair of voices
raises IndexError (it subscripts `counterpoint[0]`) instead of returning
normally. -/
theorem c2_counterexample :
    check_first_species_rules [] [] = .error "IndexError: list index out of range" := by
  with_unfolding_all decide

/-- C3 (code bug): the source's penultimate-measure test accepts the interval
set {8, 9} = {minor sixth, major sixth} although its own comment and error
message say "major sixth or minor third" (= {9, 3}): a penultimate minor third
(interval 3) is flagged and a penultimate minor sixth (interval 8) passes.
First evaluation: counterpoint [60, 63, 60] against cantus firmus [60, 60, 60]
(penultimate vertical = minor third) yields exactly the penultimate violation;
second: counterpoint [60, 68, 60] (penultimate vertical = minor sixth) passes
with no violation. -/
theorem c3_penultimate_check :
    check_first_species_rules [⟨60, 1, 0⟩, ⟨63, 1, 1⟩, ⟨60, 1, 2⟩]
        [⟨60, 1, 0⟩, ⟨60, 1, 1⟩, ⟨60, 1, 2⟩] =
      .ok (false, ["Penultimate measure should be a major sixth or minor third"]) ∧
    check_first_species_rules [⟨60, 1, 0⟩, ⟨68, 1, 1⟩, ⟨60, 1, 2⟩]
        [⟨60, 1, 0⟩, ⟨60, 1, 1⟩, ⟨60, 1, 2⟩] =
      .ok (true, []) := by
  constructor <;> with_unfolding_all decide

/-- C4 (code bug): the test suite's "valid" first-species example — cantus
firmus [C4, D4, E4] = [60, 62, 64], counterpoint [G4, A4, C5] = [67, 69, 72] —
is rejected by the validator with three violations (parallel perfect fifths at
position 1, a non-perfect closing vertical of a minor sixth, and a penultimate
vertical outside the code's {8, 9} set), not accepted with zero violations as
the test asserts. -/
theorem c4_test_example_rejected :
    check_first_species_rules [⟨67, 1, 0⟩, ⟨69, 1, 1⟩, ⟨72, 1, 2⟩]
        [⟨60, 1, 0⟩, ⟨62, 1, 1⟩, ⟨64, 1, 2⟩] =
      .ok (false, ["Parallel perfect consonance at position 1",
        "Counterpoint should end with a perfect consonance",
        "Penultimate measure should be a major sixth or minor third"]) := by
  with_unfolding_all decide

/-- C5 (code bug): under the source's parameter order
(prev_cp, curr_cp, prev_cf, curr_cf), `check_parallel_motion(60, 67, 64, 71)`
pairs 60 with 64 (a major third, not a perfect consonance) as the previous
vertical and returns false, although the test asserts true (it reads the
arguments as the verticals (60,67) and (64,71), two parallel fifths); the
second test value `check_parallel_motion(60, 64, 64, 67) = false` does hold. -/
theorem c5_check_parallel_motion_values :
    check_parallel_motion 60 67 64 71 = false ∧
    check_parallel_motion 60 64 64 67 = false := by
  constructor <;> decide

/-- C6 (amended): in the second- and third-species validators a dissonant
weak-beat subdivision escapes a violation if and only if its vertical interval
is a major second or major seventh (the code's `in [2, 11]` test) AND the note
lies strictly between the previous counterpoint pitch and the following pitch;
a dissonant passing tone with any other interval is still flagged, so the
spec's "dissonance tolerated iff passing tone" is too permissive.  Dissonant
strong-beat subdivisions are always flagged. -/
theorem c6_weak_beat_iff (a b c d : ℤ) (i j k : ℕ) :
    (second_weak_err a b c d i = [] ↔
      (is_consonant (calculate_interval b d) = true ∨
        (calculate_interval b d ∈ ([2, 11] : List ℕ) ∧ is_passing_tone a b c = true))) ∧
    (third_weak_err a b c d j = [] ↔
      (is_consonant (calculate_interval b d) = true ∨
        (calculate_interval b d ∈ ([2, 11] : List ℕ) ∧ is_passing_tone a b c = true))) ∧
    (strong_beat_err b d k = [] ↔ is_consonant (calculate_interval b d) = true) := by
  refine ⟨?_, ?_, ?_⟩
  · unfold second_weak_err
    dsimp only
    rw [iteSingletonEqNil]
    simp only [not_and_or, Bool.not_eq_false, Bool.and_eq_true, decide_eq_true_eq]
  · unfold third_weak_err
    dsimp only
    split_ifs with h1 h2
    · constructor
      · intro habs
        exact absurd habs (by simp)
      · rintro (hc | ⟨hm, hp⟩)
        · rw [hc] at h1
          exact absurd h1 (by simp)
        · rw [decide_eq_true hm, hp] at h2
          exact absurd h2 (by simp)
    · constructor
      · intro _
        have hq : (decide (calculate_interval b d ∈ ([2, 11] : List ℕ)) &&
            is_passing_tone a b c) = true := by
          rcases Bool.eq_false_or_eq_true (decide
              (calculate_interval b d ∈ ([2, 11] : List ℕ)) && is_passing_tone a b c)
            with hq | hq
          · exact hq
          · exact absurd hq h2
        simp only [Bool.and_eq_true, decide_eq_true_eq] at hq
        exact Or.inr hq
      · intro _
        rfl
    · constructor
      · intro _
        have hq : is_consonant (calculate_interval b d) = true := by
          rcases Bool.eq_false_or_eq_true (is_consonant (calculate_interval b d))
            with hq | hq
          · exact hq
          · exact absurd hq h1
        exact Or.inl hq
      · intro _
        rfl
  · unfold strong_beat_err
    rw [iteSingletonEqNil]
    simp only [Bool.not_eq_false]

/-- C6 counterexample: second species, cantus firmus [60, 60]; the weak-beat
note 70 against 60 is a dissonant minor seventh (interval 10, outside the
code's {2, 11} set) and IS a passing tone between 72 and 69 (72 > 70 > 69),
yet the validator flags it — contradicting the claim that a dissonant
weak-beat passing tone produces no violation. -/
theorem c6_counterexample :
    is_passing_tone 72 70 69 = true ∧
    is_consonant (calculate_interval 70 60) = false ∧
    check_second_species_rules
        [⟨72, 1/2, 0⟩, ⟨70, 1/2, 1/2⟩, ⟨69, 1/2, 1⟩, ⟨67, 1/2, 3/2⟩]
        [⟨60, 1, 0⟩, ⟨60, 1, 1⟩] =
      .ok (false, ["Invalid weak beat interval at position 1"]) := by
  refine ⟨by decide, by decide, by with_unfolding_all decide⟩

/-- C7 (amended): for equal-length parents with at least two notes, crossover
returns a child of exactly the parents' length, built as parent1's prefix up
to a cut point in [1, length-1] followed by parent2's suffix; for parents of
differing lengths it raises the length-mismatch ValueError, never silently
truncating.  (For equal lengths 0 and 1 the source instead raises from
`randint(1, len-1)` on an empty range — see the counterexample — so the
claim's "every pair of equal-length parents" fails there.) -/
theorem c7_crossover_spec (rng : ℕ → ℕ) (c : ℕ) (parent1 parent2 : List Note) :
    (parent1.length = parent2.length → 2 ≤ parent1.length →
      ∃ child c2 k, (crossover rng parent1 parent2).run c = .ok (child, c2) ∧
        child = parent1.take k ++ parent2.drop k ∧ 1 ≤ k ∧
        k ≤ parent1.length - 1 ∧ child.length = parent1.length) ∧
    (parent1.length ≠ parent2.length →
      (crossover rng parent1 parent2).run c =
        .error "Parents must have the same length") := by
  constructor
  · intro heq h2
    have hM : (0 : ℤ) < (parent1.length : ℤ) - 1 - 1 + 1 := by omega
    have hr0 : 0 ≤ (rng c : ℤ) % ((parent1.length : ℤ) - 1 - 1 + 1) :=
      Int.emod_nonneg _ (by omega)
    have hr1 : (rng c : ℤ) % ((parent1.length : ℤ) - 1 - 1 + 1) <
        (parent1.length : ℤ) - 1 - 1 + 1 :=
      Int.emod_lt_of_pos _ hM
    refine ⟨_, c + 1,
      (1 + (rng c : ℤ) % ((parent1.length : ℤ) - 1 - 1 + 1)).toNat, ?_, rfl, ?_, ?_, ?_⟩
    · unfold crossover
      rw [if_neg (show ¬ parent1.length ≠ parent2.length from fun hcon => hcon heq)]
      apply pyrBind_ok.mpr
      refine ⟨1 + (rng c : ℤ) % ((parent1.length : ℤ) - 1 - 1 + 1), c + 1, ?_, rfl⟩
      show (if (1 : ℤ) > (parent1.length : ℤ) - 1 then
          (.error "ValueError: empty range for randint" : Except String (ℤ × ℕ))
        else .ok (1 + (rng c : ℤ) % ((parent1.length : ℤ) - 1 - 1 + 1), c + 1)) =
        .ok (1 + (rng c : ℤ) % ((parent1.length : ℤ) - 1 - 1 + 1), c + 1)
      rw [if_neg (show ¬ (1 : ℤ) > (parent1.length : ℤ) - 1 by omega)]
    · omega
    · omega
    · simp only [List.length_append, List.length_take, List.length_drop]
      omega
  · intro hne
    unfold crossover
    rw [if_pos hne]
    rfl

/-- C7 witness: two-note parents crossed with the all-zero oracle. -/
theorem c7_crossover_spec_witness :
    (([(⟨60, 1, 0⟩ : Note), ⟨62, 1, 1⟩] : List Note).length =
        ([(⟨64, 1, 0⟩ : Note), ⟨65, 1, 1⟩] : List Note).length →
      2 ≤ ([(⟨60, 1, 0⟩ : Note), ⟨62, 1, 1⟩] : List Note).length →
      ∃ child c2 k,
        (crossover rngZero [⟨60, 1, 0⟩, ⟨62, 1, 1⟩] [⟨64, 1, 0⟩, ⟨65, 1, 1⟩]).run 0 =
          .ok (child, c2) ∧
        child = ([(⟨60, 1, 0⟩ : Note), ⟨62, 1, 1⟩] : List Note).take k ++
          ([(⟨64, 1, 0⟩ : Note), ⟨65, 1, 1⟩] : List Note).drop k ∧ 1 ≤ k ∧
        k ≤ ([(⟨60, 1, 0⟩ : Note), ⟨62, 1, 1⟩] : List Note).length - 1 ∧
        child.length = ([(⟨60, 1, 0⟩ : Note), ⟨62, 1, 1⟩] : List Note).length) ∧
    (([(⟨60, 1, 0⟩ : Note), ⟨62, 1, 1⟩] : List Note).length ≠
        ([(⟨64, 1, 0⟩ : Note), ⟨65, 1, 1⟩] : List Note).length →
      (crossover rngZero [⟨60, 1, 0⟩, ⟨62, 1, 1⟩] [⟨64, 1, 0⟩, ⟨65, 1, 1⟩]).run 0 =
        .error "Parents must have the same length") :=
  c7_crossover_spec rngZero 0 [⟨60, 1, 0⟩, ⟨62, 1, 1⟩] [⟨64, 1, 0⟩, ⟨65, 1, 1⟩]

/-- C7 counterexample: equal-length parents of length 1 (a legitimate input
under the claim) do not yield a child — the source raises ValueError from
`randint(1, 0)`. -/
theorem c7_counterexample :
    ([(⟨60, 1, 0⟩ : Note)] : List Note).length =
      ([(⟨62, 1, 0⟩ : Note)] : List Note).length ∧
    (crossover rngZero [⟨60, 1, 0⟩] [⟨62, 1, 0⟩]).run 0 =
      .error "ValueError: empty range for randint" :=
  ⟨by decide, by with_unfolding_all decide⟩

/-- C8: refining a one-note counterpoint against a one-note cantus firmus
returns a single note whose duration and position equal the input note's and
whose pitch attains the maximal per-note local fitness (`evaluate_fitness` of
the singleton counterpoint against the singleton cantus firmus) over all
pitches 0..127. -/
theorem c8_optimize_singleton (note cfn : Note) (s : Species) (m : Mode)
    (p : ℕ) (hp : p < 128) :
    ∃ (res : Note) (qres qp : ℚ),
      optimize_counterpoint [note] ⟨[cfn]⟩ s m = .ok [res] ∧
      res.duration = note.duration ∧ res.position = note.position ∧
      evaluate_fitness [⟨res.pitch, note.duration, note.position⟩] ⟨[cfn]⟩ s m =
        .ok qres ∧
      evaluate_fitness [⟨(p : ℤ), note.duration, note.position⟩] ⟨[cfn]⟩ s m =
        .ok qp ∧
      qp ≤ qres := by
  obtain ⟨cur, row0, hopt, hcur128, hrow0, hmax⟩ := optimize_singleton_spec note cfn s m
  obtain ⟨qcur, hqcur_get, hqcur⟩ := exMapM_ok_get hrow0 (List.get?_range hcur128)
  obtain ⟨qp, hqp_get, hqp⟩ := exMapM_ok_get hrow0 (List.get?_range hp)
  refine ⟨⟨(cur : ℤ), note.duration, note.position⟩, qcur, qp, hopt, rfl, rfl,
    hqcur, hqp, ?_⟩
  have h1 : row0.getD p 0 = qp := getD_of_get? hqp_get
  have h2 : row0.getD cur 0 = qcur := getD_of_get? hqcur_get
  have h3 := hmax p (List.mem_range.mpr hp)
  rw [h1, h2] at h3
  exact h3

/-- C8 witness: the theorem applied at a concrete one-note counterpoint and
cantus firmus and the concrete competitor pitch 5. -/
theorem c8_optimize_singleton_witness :
    ∃ (res : Note) (qres qp : ℚ),
      optimize_counterpoint [⟨48, 1, 0⟩] ⟨[⟨60, 1, 0⟩]⟩ .FIRST .IONIAN = .ok [res] ∧
      res.duration = (⟨48, 1, 0⟩ : Note).duration ∧
      res.position = (⟨48, 1, 0⟩ : Note).position ∧
      evaluate_fitness [⟨res.pitch, (⟨48, 1, 0⟩ : Note).duration,
        (⟨48, 1, 0⟩ : Note).position⟩] ⟨[⟨60, 1, 0⟩]⟩ .FIRST .IONIAN = .ok qres ∧
      evaluate_fitness [⟨((5 : ℕ) : ℤ), (⟨48, 1, 0⟩ : Note).duration,
        (⟨48, 1, 0⟩ : Note).position⟩] ⟨[⟨60, 1, 0⟩]⟩ .FIRST .IONIAN = .ok qp ∧
      qp ≤ qres :=
  c8_optimize_singleton ⟨48, 1, 0⟩ ⟨60, 1, 0⟩ .FIRST .IONIAN 5 (by decide)

/-- C9 (amended): whenever `evaluate_fitness` returns normally it returns
exactly 0.0 (the validator reported invalid) or exactly 1.0 (the validator
reported valid: the violation list is then empty, the 0.1-per-violation
deduction vanishes, the four placeholder sub-scores push the score to 1.5 and
the cap brings it back to 1.0) — so any valid individual reaches the GA's
early-termination ceiling 1.0.  The spec's "for every counterpoint line" fails
only because the underlying validator can raise on empty voices (see the
counterexample). -/
theorem c9_fitness_zero_or_one (cp : List Note) (cfv : Voice) (s : Species)
    (m : Mode) (q : ℚ) (h : evaluate_fitness cp cfv s m = .ok q) :
    (q = 0 ∨ q = 1) ∧
      (q = 1 ↔ ∃ es, species_check s cp cfv.notes = .ok (true, es)) := by
  obtain ⟨E, hsc, hcase⟩ := evaluate_fitness_ok_cases h
  rcases hcase with ⟨rfl, rfl⟩ | ⟨hne, rfl⟩
  · exact ⟨Or.inr rfl, fun _ => ⟨[], hsc⟩, fun _ => rfl⟩
  · refine ⟨Or.inl rfl, ?_, ?_⟩
    · intro h01
      exact absurd h01 (by norm_num)
    · rintro ⟨es, hes⟩
      rw [hsc] at hes
      have hpair := Except.ok.inj hes
      have hEmpty : E.isEmpty = true := by
        have := congrArg Prod.fst hpair
        simpa using this
      exact absurd (List.isEmpty_iff_eq_nil.mp hEmpty) hne

/-- C9 witness: a valid singleton first-species line scores exactly 1. -/
theorem c9_fitness_zero_or_one_witness :
    ((1 : ℚ) = 0 ∨ (1 : ℚ) = 1) ∧
      ((1 : ℚ) = 1 ↔ ∃ es, species_check .FIRST [⟨60, 1, 0⟩]
        (Voice.mk [⟨60, 1, 0⟩]).notes = .ok (true, es)) :=
  c9_fitness_zero_or_one [⟨60, 1, 0⟩] ⟨[⟨60, 1, 0⟩]⟩ .FIRST .IONIAN 1
    (by with_unfolding_all decide)

/-- C9 counterexample: on the empty counterpoint and cantus firmus the fitness
function raises IndexError (through the first-species validator) instead of
returning 0.0 or 1.0. -/
theorem c9_counterexample :
    evaluate_fitness [] ⟨[]⟩ .FIRST .IONIAN =
      .error "IndexError: list index out of range" := by
  with_unfolding_all decide

/-- C10 (amended): for every cantus-firmus note, species and mode,
`generate_possible_notes` returns exactly 15 notes, each at the cantus-firmus
note's position, and always containing the cantus-firmus pitch itself; hence
the candidate graph has at least one node at every cantus-firmus position.
Population seeding draws from the nodes at position `Fraction(0, 1)`, so its
choice is non-empty exactly when some cantus-firmus note sits at position 0 —
when the cantus firmus starts elsewhere the seeding raises (see the
counterexample), refuting the claim's "never draws from an empty set". -/
theorem c10_possible_notes_and_graph (cfn : Note) (s : Species) (m : Mode) :
    (generate_possible_notes cfn s m).length = 15 ∧
    (∀ x ∈ generate_possible_notes cfn s m, x.position = cfn.position) ∧
    cfn.pitch ∈ (generate_possible_notes cfn s m).map Note.pitch ∧
    (∀ (cf : List Note) (g : CounterpointGraph),
      initialize_counterpoint_graph ⟨cf⟩ s m = .ok g →
      ∀ x ∈ cf, g.get_nodes_at_position x.position ≠ []) :=
  ⟨generate_possible_notes_length cfn s m,
   generate_possible_notes_position cfn s m,
   generate_possible_notes_pitch_mem cfn s m,
   fun _ _ h => initialize_graph_nodes_at h⟩

/-- C10 counterexample: a cantus firmus whose single note sits at position 1
(not 0) builds a graph with no node at position 0, and population seeding's
`random.choice` then raises on the empty sequence — the claim's "never draws
from an empty set" is false. -/
theorem c10_counterexample :
    (initialize_counterpoint_graph ⟨[⟨60, 1, 1⟩]⟩ .FIRST .IONIAN).bind
      (fun g => (generate_initial_population g 1 rngZero).run 0) =
    .error "IndexError: cannot choose from an empty sequence" := by
  with_unfolding_all decide
